import Mathlib

/-!
LinearINodeManager: the inode table of a block-addressed file system.

A shallow embedding of `src/lib/inodes/LinearINodeManager.cpp`.

* A block is viewed, as the source does through `(INode*) block.data`, as an
  array of fixed-size inode records.  A record is its `type` tag together with
  the remaining bytes of the record, kept as one number.
* The storage device is a map from absolute block index to block.
* `uint64_t` arithmetic is arithmetic on `Nat` reduced modulo `2 ^ 64`.
* Every operation returns its outcome (a value or the exception thrown)
  together with the manager after the call, so that the effect of a failing
  call can be stated as well.
* `getTraced`, `setTraced` and `releaseTraced` are `get`, `set` and `release`
  once more, returning in addition the calls they issue to the storage device.
* The constants and types declared in headers (`Block::SIZE`, `INode::SIZE`,
  the `FileType` enumerators, `root`, the field layout of `Superblock`) are
  collected in `Config` and are parameters of every definition.
-/

namespace UnixFS

/-- Reduction of a natural number to the range of `uint64_t`. -/
def u64 (n : Nat) : Nat := n % 2 ^ 64

/-- The exceptions the manager raises: `OutOfINodes` (from `FSExceptions.h`),
`std::out_of_range`, and the abort of a failed `assert`. -/
inductive Error where
  | OutOfINodes
  | out_of_range
  | assertion_failed
deriving DecidableEq, Repr

deriving instance DecidableEq for Except

/-- One inode record.  The `type` field is the `FileType` tag; `rest` stands for
all the other bytes of the `INode::SIZE`-byte record, read as one base-256
number, so that a zero-filled record is `⟨0, 0⟩` and two records are
byte-identical exactly when they are equal. -/
structure INode where
  type : Nat
  rest : Nat
deriving DecidableEq, Repr

/-- The identifier type `INode::ID`. -/
abbrev INode.ID := Nat

/-- A block, seen as the array of inode records that `(INode*) block.data`
addresses: `block j` is the record at byte offset `j * INode::SIZE` (the record
type occupies `INode::SIZE` bytes, so `inodes[j]` and
`block.data[j * INode::SIZE]` name the same record). -/
abbrev Block := Nat → INode

/-- Modelled from the spec: the block storage device (`Storage`, external to the
sources at hand) is addressable by non-negative integer index and exposes
`get(index) -> block` and `set(index, block)`; a `set` persists once it
returns.  Storage failures are outside this model. -/
abbrev Storage := Nat → Block

/-- Reading of a block: `disk->get(index, block)`. -/
def Storage.get (disk : Storage) (index : Nat) : Block := disk index

/-- Writing of a block: `disk->set(index, block)`. -/
def Storage.set (disk : Storage) (index : Nat) (block : Block) : Storage :=
  fun k => if k = index then block else disk k

/-- One call issued to the storage device: `disk->get(index, _)` or
`disk->set(index, _)`. -/
inductive StorageCall where
  | get (index : Nat)
  | set (index : Nat)
deriving DecidableEq, Repr

/-- Assignment to one record of a block image held in memory. -/
def Block.setINode (block : Block) (inode_index : Nat) (inode : INode) : Block :=
  fun j => if j = inode_index then inode else block j

/-- Assignment `inodes[inode_index].type = t`: only the tag of the record changes. -/
def Block.setType (block : Block) (inode_index : Nat) (t : Nat) : Block :=
  block.setINode inode_index { block inode_index with type := t }

/-- The block image after `std::memset(block.data, 0, Block::SIZE)`. -/
def Block.zero : Block := fun _ => ⟨0, 0⟩

/-- The two fields of the superblock that the manager reads. -/
structure Superblock where
  inode_block_start : Nat
  inode_block_count : Nat
deriving DecidableEq, Repr

/-- The declarations the source takes from headers that are not part of the
sources at hand.  `superblock` is the reading of a block through the cast
`(Superblock*) &block`. -/
structure Config where
  BLOCK_SIZE : Nat
  INODE_SIZE : Nat
  FREE : Nat
  RESERVED : Nat
  root : Nat
  superblock : Block → Superblock

/-- The local `num_inodes_per_block = Block::SIZE / INode::SIZE` that every
operation computes. -/
def Config.num_inodes_per_block (cfg : Config) : Nat := cfg.BLOCK_SIZE / cfg.INODE_SIZE

/-- The manager object: the storage it points to and its cached layout. -/
structure LinearINodeManager where
  disk : Storage
  start_block : Nat
  block_count : Nat
  num_inodes : Nat

namespace LinearINodeManager

/-- `LinearINodeManager::reload`: reads block 0, checks the assertion, and
caches the layout.  The three members are `uint64_t`. -/
def reload (cfg : Config) (m : LinearINodeManager) : Except Error Unit × LinearINodeManager :=
  let block := m.disk.get 0
  let superblock := cfg.superblock block
  if cfg.BLOCK_SIZE % cfg.INODE_SIZE = 0 then
    let num_inodes_per_block := cfg.num_inodes_per_block
    let start_block := u64 superblock.inode_block_start
    let block_count := u64 superblock.inode_block_count
    (.ok (), { disk := m.disk, start_block := start_block, block_count := block_count,
               num_inodes := u64 (num_inodes_per_block * block_count) })
  else
    (.error .assertion_failed, m)

/-- The inner loop of the first loop of `mkfs`: `remaining` more iterations from
`inode_index` on, each tagging one record of the block image `RESERVED`. -/
def mkfs.tagBlock (cfg : Config) : Nat → Nat → Block → Block
  | 0, _, block => block
  | remaining + 1, inode_index, block =>
      mkfs.tagBlock cfg remaining (inode_index + 1) (block.setType inode_index cfg.RESERVED)

/-- The first loop of `mkfs`: `remaining` more iterations from `i` on.  Each
iteration tags every record of the block image and writes the image to block
`start_block + i`. -/
def mkfs.reservedLoop (cfg : Config) (start_block : Nat) :
    Nat → Nat → Block → Storage → Block × Storage
  | 0, _, block, disk => (block, disk)
  | remaining + 1, i, block, disk =>
      let block1 := mkfs.tagBlock cfg cfg.num_inodes_per_block 0 block
      mkfs.reservedLoop cfg start_block remaining (i + 1) block1
        (disk.set (u64 (start_block + i)) block1)

/-- The second loop of `mkfs`: `remaining` more iterations from `i` on, each
writing the zero-filled block image to block `start_block + i`. -/
def mkfs.zeroLoop (start_block : Nat) (block : Block) : Nat → Nat → Storage → Storage
  | 0, _, disk => disk
  | remaining + 1, i, disk =>
      mkfs.zeroLoop start_block block remaining (i + 1) (disk.set (u64 (start_block + i)) block)

/-- `LinearINodeManager::mkfs`.  `uninit` is the content of the local `Block block`
before anything is written to it.  The loop bound `block_count*32*8/330` is
computed in `uint64_t`; the first loop runs for `i = 1 .. bound - 1`, the second
for `i = bound .. block_count - 1`.  The final writes to `inodes[0]` and
`inodes[1]` address records of the block only when a block holds at least two
records. -/
def mkfs (cfg : Config) (uninit : Block) (m : LinearINodeManager) :
    Except Error Unit × LinearINodeManager :=
  match m.reload cfg with
  | (.error e, m1) => (.error e, m1)
  | (.ok (), m1) =>
      let bound := u64 (u64 (m1.block_count * 32) * 8) / 330
      let (_, disk1) := mkfs.reservedLoop cfg m1.start_block (bound - 1) 1 uninit m1.disk
      let block := Block.zero
      let disk2 := mkfs.zeroLoop m1.start_block block (m1.block_count - bound) bound disk1
      let block := block.setType 0 cfg.RESERVED
      let block := block.setType 1 cfg.RESERVED
      (.ok (), { m1 with disk := disk2.set m1.start_block block })

/-- The inner loop of `reserve` over the records of block `i`: `remaining` more
iterations from `j` on; the identifier of the first record tagged `FREE`. -/
def reserve.scanBlock (cfg : Config) (inodes : Block) (i : Nat) : Nat → Nat → Option INode.ID
  | 0, _ => none
  | remaining + 1, j =>
      if (inodes j).type = cfg.FREE then
        some (u64 (u64 (i * cfg.num_inodes_per_block) + j))
      else
        reserve.scanBlock cfg inodes i remaining (j + 1)

/-- The outer loop of `reserve` over the blocks of the region: `remaining` more
iterations from `i` on. -/
def reserve.loop (cfg : Config) (m : LinearINodeManager) : Nat → Nat → Except Error INode.ID
  | 0, _ => .error .OutOfINodes
  | remaining + 1, i =>
      match reserve.scanBlock cfg (m.disk.get (u64 (m.start_block + i))) i
          cfg.num_inodes_per_block 0 with
      | some id => .ok id
      | none => reserve.loop cfg m remaining (i + 1)

/-- `LinearINodeManager::reserve`: get an inode from the free list. -/
def reserve (cfg : Config) (m : LinearINodeManager) : Except Error INode.ID × LinearINodeManager :=
  (reserve.loop cfg m m.block_count 0, m)

/-- `LinearINodeManager::release`: free an inode. -/
def release (cfg : Config) (m : LinearINodeManager) (inode_num : INode.ID) :
    Except Error Unit × LinearINodeManager :=
  if inode_num ≥ m.num_inodes ∨ inode_num < cfg.root then
    (.error .out_of_range, m)
  else
    let num_inodes_per_block := cfg.num_inodes_per_block
    let block_index := inode_num / num_inodes_per_block
    let inode_index := inode_num % num_inodes_per_block
    let block := m.disk.get (u64 (m.start_block + block_index))
    let block := block.setType inode_index cfg.FREE
    (.ok (), { m with disk := m.disk.set (u64 (m.start_block + block_index)) block })

/-- `LinearINodeManager::get`: reads an inode into the record `user_inode`
provided by the caller; the second component is that record after the call. -/
def get (cfg : Config) (m : LinearINodeManager) (inode_num : INode.ID) (user_inode : INode) :
    Except Error Unit × INode × LinearINodeManager :=
  if inode_num ≥ m.num_inodes ∨ inode_num < cfg.root then
    (.error .out_of_range, user_inode, m)
  else
    let num_inodes_per_block := cfg.num_inodes_per_block
    let block_index := inode_num / num_inodes_per_block
    let inode_index := inode_num % num_inodes_per_block
    let block := m.disk.get (u64 (m.start_block + block_index))
    (.ok (), block inode_index, m)

/-- `LinearINodeManager::set`: writes the record `user_inode` to slot `inode_num`. -/
def set (cfg : Config) (m : LinearINodeManager) (inode_num : INode.ID) (user_inode : INode) :
    Except Error Unit × LinearINodeManager :=
  if inode_num ≥ m.num_inodes ∨ inode_num < cfg.root then
    (.error .out_of_range, m)
  else
    let num_inodes_per_block := cfg.num_inodes_per_block
    let block_index := inode_num / num_inodes_per_block
    let inode_index := inode_num % num_inodes_per_block
    let block := m.disk.get (u64 (m.start_block + block_index))
    let block := block.setINode inode_index user_inode
    (.ok (), { m with disk := m.disk.set (u64 (m.start_block + block_index)) block })

/-- `LinearINodeManager::get` once more, together with the calls it issues to the
storage device, in order. -/
def getTraced (cfg : Config) (m : LinearINodeManager) (inode_num : INode.ID)
    (user_inode : INode) :
    (Except Error Unit × INode × LinearINodeManager) × List StorageCall :=
  if inode_num ≥ m.num_inodes ∨ inode_num < cfg.root then
    ((.error .out_of_range, user_inode, m), [])
  else
    let num_inodes_per_block := cfg.num_inodes_per_block
    let block_index := inode_num / num_inodes_per_block
    let inode_index := inode_num % num_inodes_per_block
    let block := m.disk.get (u64 (m.start_block + block_index))
    ((.ok (), block inode_index, m), [.get (u64 (m.start_block + block_index))])

/-- `LinearINodeManager::set` once more, together with the calls it issues to the
storage device, in order. -/
def setTraced (cfg : Config) (m : LinearINodeManager) (inode_num : INode.ID)
    (user_inode : INode) : (Except Error Unit × LinearINodeManager) × List StorageCall :=
  if inode_num ≥ m.num_inodes ∨ inode_num < cfg.root then
    ((.error .out_of_range, m), [])
  else
    let num_inodes_per_block := cfg.num_inodes_per_block
    let block_index := inode_num / num_inodes_per_block
    let inode_index := inode_num % num_inodes_per_block
    let block := m.disk.get (u64 (m.start_block + block_index))
    let block := block.setINode inode_index user_inode
    ((.ok (), { m with disk := m.disk.set (u64 (m.start_block + block_index)) block }),
      [.get (u64 (m.start_block + block_index)), .set (u64 (m.start_block + block_index))])

/-- `LinearINodeManager::release` once more, together with the calls it issues to
the storage device, in order. -/
def releaseTraced (cfg : Config) (m : LinearINodeManager) (inode_num : INode.ID) :
    (Except Error Unit × LinearINodeManager) × List StorageCall :=
  if inode_num ≥ m.num_inodes ∨ inode_num < cfg.root then
    ((.error .out_of_range, m), [])
  else
    let num_inodes_per_block := cfg.num_inodes_per_block
    let block_index := inode_num / num_inodes_per_block
    let inode_index := inode_num % num_inodes_per_block
    let block := m.disk.get (u64 (m.start_block + block_index))
    let block := block.setType inode_index cfg.FREE
    ((.ok (), { m with disk := m.disk.set (u64 (m.start_block + block_index)) block }),
      [.get (u64 (m.start_block + block_index)), .set (u64 (m.start_block + block_index))])

/-- The constructor `LinearINodeManager::LinearINodeManager(Storage& storage)`:
it stores the pointer to the storage and calls `reload`.  The three layout
members hold whatever they held before `reload` assigns them. -/
def construct (cfg : Config) (storage : Storage) (start_block block_count num_inodes : Nat) :
    Except Error Unit × LinearINodeManager :=
  reload cfg { disk := storage, start_block := start_block, block_count := block_count,
               num_inodes := num_inodes }

/-- `LinearINodeManager::getRoot`. -/
def getRoot (cfg : Config) (_m : LinearINodeManager) : INode.ID := cfg.root

/-- The three members of `struct statvfs` that `statfs` assigns. -/
structure statvfs where
  f_files : Nat
  f_ffree : Nat
  f_favail : Nat
deriving DecidableEq, Repr

/-- `LinearINodeManager::statfs`: fills in the capacity report `info`. -/
def statfs (m : LinearINodeManager) (info : statvfs) : statvfs :=
  { info with f_files := m.num_inodes, f_ffree := 42, f_favail := 42 }

end LinearINodeManager

/-! Notions used to state the properties. -/

/-- The record of slot `n`, located by the translation that `get`, `set` and
`release` use: relative block `n / num_inodes_per_block`, record
`n % num_inodes_per_block`. -/
def slot (cfg : Config) (m : LinearINodeManager) (n : INode.ID) : INode :=
  m.disk.get (u64 (m.start_block + n / cfg.num_inodes_per_block))
    (n % cfg.num_inodes_per_block)

/-- A cached layout as `reload` leaves it: the members are `uint64_t` values and
`num_inodes` is the 64-bit product of the records per block and the block count. -/
def Loaded (cfg : Config) (m : LinearINodeManager) : Prop :=
  m.start_block < 2 ^ 64 ∧ m.block_count < 2 ^ 64 ∧
    m.num_inodes = u64 (cfg.num_inodes_per_block * m.block_count)

instance (cfg : Config) (m : LinearINodeManager) : Decidable (Loaded cfg m) := by
  unfold Loaded; infer_instance

/-- The slot count of the region fits in 64 bits, so that `num_inodes` is the
exact product and not a wrapped one. -/
def NoWrap (cfg : Config) (m : LinearINodeManager) : Prop :=
  cfg.num_inodes_per_block * m.block_count < 2 ^ 64

instance (cfg : Config) (m : LinearINodeManager) : Decidable (NoWrap cfg m) := by
  unfold NoWrap; infer_instance

/-! A concrete instance, used to evaluate the operations on explicit inputs. -/

/-- A configuration with four records per block, `FREE = 0`, `RESERVED = 1`,
`root = 1`, whose superblock keeps the start of the inode region in the tag of
its first record and the block count in the rest of that record. -/
def exampleConfig : Config :=
  { BLOCK_SIZE := 512, INODE_SIZE := 128, FREE := 0, RESERVED := 1, root := 1,
    superblock := fun block => ⟨(block 0).type, (block 0).rest⟩ }

/-- A zero-filled disk whose superblock places an inode region of `count` blocks
at block 1. -/
def exampleDisk (count : Nat) : Storage :=
  fun k => if k = 0 then Block.zero.setINode 0 ⟨1, count⟩ else Block.zero

/-- The manager constructed on `exampleDisk count`. -/
def exampleManager (count : Nat) : LinearINodeManager :=
  (LinearINodeManager.reload exampleConfig ⟨exampleDisk count, 0, 0, 0⟩).2

/-- The manager right after `mkfs` on `exampleDisk count`. -/
def exampleFormatted (count : Nat) : LinearINodeManager :=
  ((exampleManager count).mkfs exampleConfig Block.zero).2

/-- The manager of `exampleFormatted 3` after slot 2 has been written as in use. -/
def exampleInUse : LinearINodeManager :=
  ((exampleFormatted 3).set exampleConfig 2 ⟨7, 99⟩).2

/-- A zero-filled disk whose superblock places an inode region of `count` blocks
at block `start`. -/
def exampleDiskAt (start count : Nat) : Storage :=
  fun k => if k = 0 then Block.zero.setINode 0 ⟨start, count⟩ else Block.zero

/-- The manager constructed on a disk whose superblock places a region of two
blocks at the last block index, `2 ^ 64 - 1`. -/
def exampleAtEnd : LinearINodeManager :=
  (LinearINodeManager.construct exampleConfig (exampleDiskAt (2 ^ 64 - 1) 2) 0 0 0).2

/-- The example configuration with a record size, 100, that does not divide the
block size, 512. -/
def exampleOddConfig : Config := { exampleConfig with INODE_SIZE := 100 }

/-! Sequences of calls, to state what holds in every reachable state. -/

/-- One call of `reserve`, `get`, `set` or `release`, with its arguments. -/
inductive Call where
  | reserve
  | get (inode_num : INode.ID) (user_inode : INode)
  | set (inode_num : INode.ID) (user_inode : INode)
  | release (inode_num : INode.ID)
deriving DecidableEq, Repr

/-- The manager after a call, whether the call succeeded or failed. -/
def Call.run (cfg : Config) (m : LinearINodeManager) : Call → LinearINodeManager
  | .reserve => (m.reserve cfg).2
  | .get inode_num user_inode => (m.get cfg inode_num user_inode).2.2
  | .set inode_num user_inode => (m.set cfg inode_num user_inode).2
  | .release inode_num => (m.release cfg inode_num).2

/-- The manager after a finite sequence of calls. -/
def runCalls (cfg : Config) (m : LinearINodeManager) (calls : List Call) : LinearINodeManager :=
  calls.foldl (Call.run cfg) m

/-- The call is a `set` or a `release` addressed to identifier `n`. -/
def Call.writesTo (n : INode.ID) : Call → Prop
  | .set inode_num _ => inode_num = n
  | .release inode_num => inode_num = n
  | _ => False

instance (n : INode.ID) (c : Call) : Decidable (c.writesTo n) := by
  cases c <;> unfold Call.writesTo <;> infer_instance

/-- What a caller of the allocator does to obtain an inode: `reserve()`, then
`set` of the returned slot to the record `inode` that marks it as in use. -/
def allocate (cfg : Config) (m : LinearINodeManager) (inode : INode) :
    Except Error INode.ID × LinearINodeManager :=
  match m.reserve cfg with
  | (.error e, m1) => (.error e, m1)
  | (.ok id, m1) =>
      match m1.set cfg id inode with
      | (.error e, m2) => (.error e, m2)
      | (.ok (), m2) => (.ok id, m2)

/-- Repeated allocation, one for each record of the list, with the outcome of
every round. -/
def allocateAll (cfg : Config) : LinearINodeManager → List INode →
    List (Except Error INode.ID) × LinearINodeManager
  | m, [] => ([], m)
  | m, inode :: inodes =>
      ((allocate cfg m inode).1 :: (allocateAll cfg (allocate cfg m inode).2 inodes).1,
        (allocateAll cfg (allocate cfg m inode).2 inodes).2)

/-- The identifiers below `num_inodes` whose slot is tagged `FREE`. -/
def freeSlots (cfg : Config) (m : LinearINodeManager) : Finset Nat :=
  (Finset.range m.num_inodes).filter (fun n => (slot cfg m n).type = cfg.FREE)

/-- The loop bound `block_count*32*8/330` of `mkfs`, in `uint64_t`. -/
def mkfsBound (m : LinearINodeManager) : Nat := u64 (u64 (m.block_count * 32) * 8) / 330

/-- The number of slots that `mkfs` leaves tagged `FREE`: all but slots 0 and 1
and the slots of the blocks `1 .. bound - 1`. -/
def freeAfterMkfs (cfg : Config) (m : LinearINodeManager) : Nat :=
  m.num_inodes - 2 - (max (mkfsBound m) 1 - 1) * cfg.num_inodes_per_block

/-- The manager of `exampleFormatted 1` after its two free slots have been
allocated and written as in use. -/
def exampleFull : LinearINodeManager :=
  (allocateAll exampleConfig (exampleFormatted 1) [⟨7, 99⟩, ⟨7, 98⟩]).2

/-! Basic facts about blocks and storage. -/

theorem Storage.get_set (disk : Storage) (index : Nat) (block : Block) (k : Nat) :
    (disk.set index block).get k = if k = index then block else disk.get k := rfl

theorem Block.setINode_apply (block : Block) (inode_index : Nat) (inode : INode) (j : Nat) :
    block.setINode inode_index inode j = if j = inode_index then inode else block j := rfl

theorem u64_lt (n : Nat) : u64 n < 2 ^ 64 := Nat.mod_lt _ (by norm_num)

theorem u64_of_lt {n : Nat} (h : n < 2 ^ 64) : u64 n = n := Nat.mod_eq_of_lt h

/-- Blocks of the region at distinct relative indices are distinct blocks of the disk. -/
theorem u64_add_inj {s a b : Nat} (ha : a < 2 ^ 64) (hb : b < 2 ^ 64)
    (h : u64 (s + a) = u64 (s + b)) : a = b := by
  unfold u64 at h
  omega

/-! The scan of `reserve`. -/

theorem scanBlock_eq_none (cfg : Config) (inodes : Block) (i : Nat) :
    ∀ remaining j : Nat,
      LinearINodeManager.reserve.scanBlock cfg inodes i remaining j = none ↔
        ∀ k, j ≤ k → k < j + remaining → (inodes k).type ≠ cfg.FREE := by
  intro remaining
  induction remaining with
  | zero =>
    intro j
    simp only [LinearINodeManager.reserve.scanBlock, true_iff]
    intro k h1 h2
    omega
  | succ n ih =>
    intro j
    simp only [LinearINodeManager.reserve.scanBlock]
    by_cases hj : (inodes j).type = cfg.FREE
    · simp only [hj, if_true]
      constructor
      · intro h; cases h
      · intro h; exact absurd hj (h j (le_refl _) (by omega))
    · simp only [hj, if_false, ih]
      constructor
      · intro h k h1 h2
        by_cases hk : k = j
        · subst hk; exact hj
        · exact h k (by omega) (by omega)
      · intro h k h1 h2
        exact h k (by omega) (by omega)

theorem scanBlock_eq_some (cfg : Config) (inodes : Block) (i : Nat) :
    ∀ (remaining j : Nat) (id : Nat),
      LinearINodeManager.reserve.scanBlock cfg inodes i remaining j = some id ↔
        ∃ j1, j ≤ j1 ∧ j1 < j + remaining ∧ (inodes j1).type = cfg.FREE ∧
          (∀ k, j ≤ k → k < j1 → (inodes k).type ≠ cfg.FREE) ∧
          id = u64 (u64 (i * cfg.num_inodes_per_block) + j1) := by
  intro remaining
  induction remaining with
  | zero =>
    intro j id
    simp only [LinearINodeManager.reserve.scanBlock]
    constructor
    · intro h; cases h
    · rintro ⟨j1, h1, h2, _⟩; omega
  | succ n ih =>
    intro j id
    simp only [LinearINodeManager.reserve.scanBlock]
    by_cases hj : (inodes j).type = cfg.FREE
    · simp only [hj, if_true]
      constructor
      · intro h
        refine ⟨j, le_refl _, by omega, hj, fun k h1 h2 => by omega, ?_⟩
        exact (Option.some.inj h).symm
      · rintro ⟨j1, h1, h2, h3, h4, h5⟩
        have : j1 = j := by
          by_contra hne
          exact h4 j (le_refl _) (by omega) hj
        subst this
        rw [h5]
    · simp only [hj, if_false, ih]
      constructor
      · rintro ⟨j1, h1, h2, h3, h4, h5⟩
        refine ⟨j1, by omega, by omega, h3, fun k hk1 hk2 => ?_, h5⟩
        by_cases hk : k = j
        · subst hk; exact hj
        · exact h4 k (by omega) hk2
      · rintro ⟨j1, h1, h2, h3, h4, h5⟩
        have hne : j1 ≠ j := by
          intro h; subst h; exact hj h3
        exact ⟨j1, by omega, by omega, h3, fun k hk1 hk2 => h4 k (by omega) hk2, h5⟩

theorem loop_eq_error (cfg : Config) (m : LinearINodeManager) :
    ∀ (remaining i : Nat) (e : Error),
      LinearINodeManager.reserve.loop cfg m remaining i = .error e ↔
        e = .OutOfINodes ∧ ∀ b, i ≤ b → b < i + remaining →
          ∀ k, k < cfg.num_inodes_per_block →
            (m.disk.get (u64 (m.start_block + b)) k).type ≠ cfg.FREE := by
  intro remaining
  induction remaining with
  | zero =>
    intro i e
    simp only [LinearINodeManager.reserve.loop]
    constructor
    · intro h
      refine ⟨?_, fun b h1 h2 => by omega⟩
      cases h; rfl
    · rintro ⟨h, _⟩; rw [h]
  | succ n ih =>
    intro i e
    simp only [LinearINodeManager.reserve.loop]
    cases hs : LinearINodeManager.reserve.scanBlock cfg (m.disk.get (u64 (m.start_block + i))) i
        cfg.num_inodes_per_block 0 with
    | some id =>
      simp only
      obtain ⟨j1, _, h2, h3, _, _⟩ := (scanBlock_eq_some cfg _ i _ 0 id).1 hs
      constructor
      · intro h; cases h
      · rintro ⟨_, h⟩
        exact absurd h3 (h i (le_refl _) (by omega) j1 (by omega))
    | none =>
      simp only [ih]
      have hn := (scanBlock_eq_none cfg _ i _ 0).1 hs
      constructor
      · rintro ⟨he, h⟩
        refine ⟨he, fun b h1 h2 k hk => ?_⟩
        by_cases hb : b = i
        · subst hb; exact hn k (Nat.zero_le _) (by omega)
        · exact h b (by omega) (by omega) k hk
      · rintro ⟨he, h⟩
        exact ⟨he, fun b h1 h2 k hk => h b (by omega) (by omega) k hk⟩

theorem loop_eq_ok (cfg : Config) (m : LinearINodeManager) :
    ∀ (remaining i : Nat) (id : Nat),
      LinearINodeManager.reserve.loop cfg m remaining i = .ok id ↔
        ∃ b j, i ≤ b ∧ b < i + remaining ∧ j < cfg.num_inodes_per_block ∧
          (m.disk.get (u64 (m.start_block + b)) j).type = cfg.FREE ∧
          (∀ k, k < j → (m.disk.get (u64 (m.start_block + b)) k).type ≠ cfg.FREE) ∧
          (∀ c, i ≤ c → c < b → ∀ k, k < cfg.num_inodes_per_block →
            (m.disk.get (u64 (m.start_block + c)) k).type ≠ cfg.FREE) ∧
          id = u64 (u64 (b * cfg.num_inodes_per_block) + j) := by
  intro remaining
  induction remaining with
  | zero =>
    intro i id
    simp only [LinearINodeManager.reserve.loop]
    constructor
    · intro h; cases h
    · rintro ⟨b, j, h1, h2, _⟩; omega
  | succ n ih =>
    intro i id
    simp only [LinearINodeManager.reserve.loop]
    cases hs : LinearINodeManager.reserve.scanBlock cfg (m.disk.get (u64 (m.start_block + i))) i
        cfg.num_inodes_per_block 0 with
    | some id1 =>
      simp only
      obtain ⟨j1, _, h2, h3, h4, h5⟩ := (scanBlock_eq_some cfg _ i _ 0 id1).1 hs
      constructor
      · intro h
        have hid : id1 = id := Except.ok.inj h
        subst hid
        exact ⟨i, j1, le_refl _, by omega, by omega, h3,
          fun k hk => h4 k (Nat.zero_le _) hk, fun c hc1 hc2 => by omega, h5⟩
      · rintro ⟨b, j, hb1, hb2, hj, hf, hbefore, hblocks, hid⟩
        have hbi : b = i := by
          by_contra hne
          exact hblocks i (le_refl _) (by omega) j1 (by omega) h3
        subst hbi
        have hjj : j = j1 := by
          rcases Nat.lt_trichotomy j j1 with h | h | h
          · exact absurd hf (h4 j (Nat.zero_le _) h)
          · exact h
          · exact absurd h3 (hbefore j1 h)
        subst hjj
        rw [hid, h5]
    | none =>
      simp only [ih]
      have hn := (scanBlock_eq_none cfg _ i _ 0).1 hs
      constructor
      · rintro ⟨b, j, hb1, hb2, hj, hf, hbefore, hblocks, hid⟩
        refine ⟨b, j, by omega, by omega, hj, hf, hbefore, fun c hc1 hc2 k hk => ?_, hid⟩
        by_cases hc : c = i
        · subst hc; exact hn k (Nat.zero_le _) (by omega)
        · exact hblocks c (by omega) hc2 k hk
      · rintro ⟨b, j, hb1, hb2, hj, hf, hbefore, hblocks, hid⟩
        have hne : b ≠ i := by
          intro h; subst h
          exact hn j (Nat.zero_le _) (by omega) hf
        exact ⟨b, j, by omega, by omega, hj, hf, hbefore,
          fun c hc1 hc2 k hk => hblocks c (by omega) hc2 k hk, hid⟩


/-! Slots and the blocks of the region. -/

theorem slot_mul_add (cfg : Config) (m : LinearINodeManager) (b j : Nat)
    (hj : j < cfg.num_inodes_per_block) :
    slot cfg m (b * cfg.num_inodes_per_block + j) = m.disk.get (u64 (m.start_block + b)) j := by
  have hP : 0 < cfg.num_inodes_per_block := by omega
  unfold slot
  have h1 : (b * cfg.num_inodes_per_block + j) / cfg.num_inodes_per_block = b := by
    rw [Nat.add_comm, Nat.add_mul_div_right _ _ hP, Nat.div_eq_of_lt hj, Nat.zero_add]
  have h2 : (b * cfg.num_inodes_per_block + j) % cfg.num_inodes_per_block = j := by
    rw [Nat.add_comm, Nat.add_mul_mod_self_right, Nat.mod_eq_of_lt hj]
  rw [h1, h2]

theorem mul_add_lt_mul {P count b j : Nat} (hb : b < count) (hj : j < P) :
    b * P + j < P * count := by
  have h1 : (b + 1) * P ≤ count * P := Nat.mul_le_mul_right P hb
  have h2 : (b + 1) * P = b * P + P := by ring
  have h3 : count * P = P * count := Nat.mul_comm _ _
  omega

theorem u64_id_of_lt {P b j : Nat} (h : b * P + j < 2 ^ 64) : u64 (u64 (b * P) + j) = b * P + j := by
  have h1 : b * P < 2 ^ 64 := by omega
  rw [u64_of_lt h1, u64_of_lt h]

theorem per_block_pos_of_lt {cfg : Config} {m : LinearINodeManager} {i : Nat}
    (hnum : m.num_inodes = u64 (cfg.num_inodes_per_block * m.block_count))
    (hi : i < m.num_inodes) : 0 < cfg.num_inodes_per_block := by
  rcases Nat.eq_zero_or_pos cfg.num_inodes_per_block with h0 | h0
  · rw [hnum, h0, Nat.zero_mul] at hi
    simp [u64] at hi
  · exact h0

theorem div_mod_decomp (P n : Nat) : n = (n / P) * P + n % P := by
  rw [Nat.mul_comm]; exact (Nat.div_add_mod n P).symm

/-- What a successful `reserve` found, for a layout whose slot count fits in
64 bits: the block and the record of the first `FREE` tag of the scan. -/
theorem reserve_ok_found (cfg : Config) (m : LinearINodeManager) (n : Nat)
    (hW : NoWrap cfg m) (h : (m.reserve cfg).1 = .ok n) :
    ∃ b j, b < m.block_count ∧ j < cfg.num_inodes_per_block ∧
      n = b * cfg.num_inodes_per_block + j ∧
      (m.disk.get (u64 (m.start_block + b)) j).type = cfg.FREE ∧
      (∀ k, k < j → (m.disk.get (u64 (m.start_block + b)) k).type ≠ cfg.FREE) ∧
      (∀ c, c < b → ∀ k, k < cfg.num_inodes_per_block →
        (m.disk.get (u64 (m.start_block + c)) k).type ≠ cfg.FREE) := by
  unfold NoWrap at hW
  obtain ⟨b, j, _, hb, hj, hfree, hbefore, hblocks, hid⟩ :=
    (loop_eq_ok cfg m m.block_count 0 n).1 h
  have hlt : b * cfg.num_inodes_per_block + j < cfg.num_inodes_per_block * m.block_count :=
    mul_add_lt_mul (by omega) hj
  rw [u64_id_of_lt (by omega)] at hid
  exact ⟨b, j, by omega, hj, hid, hfree, hbefore, fun c hc => hblocks c (Nat.zero_le _) hc⟩

/-- The outcome of `reserve` is `OutOfINodes` exactly when no record of the blocks
of the region is tagged `FREE`. -/
theorem reserve_error_iff_blocks (cfg : Config) (m : LinearINodeManager) :
    (m.reserve cfg).1 = .error .OutOfINodes ↔
      ∀ b, b < m.block_count → ∀ k, k < cfg.num_inodes_per_block →
        (m.disk.get (u64 (m.start_block + b)) k).type ≠ cfg.FREE := by
  constructor
  · intro h b hb k hk
    exact ((loop_eq_error cfg m m.block_count 0 _).1 h).2 b (Nat.zero_le _) (by omega) k hk
  · intro h
    exact (loop_eq_error cfg m m.block_count 0 _).2
      ⟨rfl, fun b _ hb k hk => h b (by omega) k hk⟩

/-- For a loaded layout whose slot count fits in 64 bits, the records of the
blocks of the region are the slots below `num_inodes`. -/
theorem blocks_iff_slots (cfg : Config) (m : LinearINodeManager)
    (hL : Loaded cfg m) (hW : NoWrap cfg m) :
    (∀ b, b < m.block_count → ∀ k, k < cfg.num_inodes_per_block →
        (m.disk.get (u64 (m.start_block + b)) k).type ≠ cfg.FREE) ↔
      ∀ n, n < m.num_inodes → (slot cfg m n).type ≠ cfg.FREE := by
  obtain ⟨_, _, hnum⟩ := hL
  have hnum0 := hnum
  unfold NoWrap at hW
  rw [u64_of_lt hW] at hnum
  constructor
  · intro h n hn
    have hP : 0 < cfg.num_inodes_per_block := per_block_pos_of_lt hnum0 hn
    have hnm : n % cfg.num_inodes_per_block < cfg.num_inodes_per_block := Nat.mod_lt _ hP
    rw [div_mod_decomp cfg.num_inodes_per_block n, slot_mul_add cfg m _ _ hnm]
    refine h _ ?_ _ hnm
    rw [hnum] at hn
    exact Nat.div_lt_of_lt_mul hn
  · intro h b hb k hk
    rw [← slot_mul_add cfg m b k hk]
    apply h
    rw [hnum]
    exact mul_add_lt_mul hb hk

/-! The effect of `set` and `release`. -/

theorem set_accepted (cfg : Config) (m : LinearINodeManager) (i : Nat) (r : INode)
    (hlo : cfg.root ≤ i) (hi : i < m.num_inodes) :
    m.set cfg i r = (.ok (), { m with disk :=
      (m.disk.set (u64 (m.start_block + i / cfg.num_inodes_per_block))
        ((m.disk.get (u64 (m.start_block + i / cfg.num_inodes_per_block))).setINode
          (i % cfg.num_inodes_per_block) r)) }) := by
  have hc : ¬ (i ≥ m.num_inodes ∨ i < cfg.root) := by omega
  simp [LinearINodeManager.set, hc]

theorem set_rejected (cfg : Config) (m : LinearINodeManager) (i : Nat) (r : INode)
    (h : i ≥ m.num_inodes ∨ i < cfg.root) : m.set cfg i r = (.error .out_of_range, m) := by
  simp [LinearINodeManager.set, h]

theorem release_accepted (cfg : Config) (m : LinearINodeManager) (i : Nat)
    (hlo : cfg.root ≤ i) (hi : i < m.num_inodes) :
    m.release cfg i = (.ok (), { m with disk :=
      (m.disk.set (u64 (m.start_block + i / cfg.num_inodes_per_block))
        ((m.disk.get (u64 (m.start_block + i / cfg.num_inodes_per_block))).setType
          (i % cfg.num_inodes_per_block) cfg.FREE)) }) := by
  have hc : ¬ (i ≥ m.num_inodes ∨ i < cfg.root) := by omega
  simp [LinearINodeManager.release, hc]

theorem release_rejected (cfg : Config) (m : LinearINodeManager) (i : Nat)
    (h : i ≥ m.num_inodes ∨ i < cfg.root) : m.release cfg i = (.error .out_of_range, m) := by
  simp [LinearINodeManager.release, h]

/-- Two identifiers that the translation sends to the same record of the same
block are equal. -/
theorem position_inj {s P a b : Nat} (ha : a < 2 ^ 64) (hb : b < 2 ^ 64)
    (h1 : u64 (s + a / P) = u64 (s + b / P)) (h2 : a % P = b % P) : a = b := by
  have hda : a / P < 2 ^ 64 := lt_of_le_of_lt (Nat.div_le_self _ _) ha
  have hdb : b / P < 2 ^ 64 := lt_of_le_of_lt (Nat.div_le_self _ _) hb
  have h3 : a / P = b / P := u64_add_inj hda hdb h1
  rw [div_mod_decomp P a, div_mod_decomp P b, h3, h2]

/-- A write to the record of slot `i` leaves the record of every other slot alone. -/
theorem get_set_other (disk : Storage) (s P i n : Nat) (block : Block)
    (hsame : ∀ j, j ≠ i % P → block j = disk.get (u64 (s + i / P)) j)
    (hi : i < 2 ^ 64) (hn : n < 2 ^ 64) (hne : n ≠ i) :
    (disk.set (u64 (s + i / P)) block).get (u64 (s + n / P)) (n % P) =
      disk.get (u64 (s + n / P)) (n % P) := by
  rw [Storage.get_set]
  by_cases hb : u64 (s + n / P) = u64 (s + i / P)
  · rw [if_pos hb, hsame, hb]
    intro hm
    exact hne (position_inj hn hi hb hm)
  · rw [if_neg hb]

theorem slot_set_other (cfg : Config) (m : LinearINodeManager) (i n : Nat) (r : INode)
    (hnum : m.num_inodes ≤ 2 ^ 64) (hn : n < 2 ^ 64) (hne : n ≠ i) :
    slot cfg (m.set cfg i r).2 n = slot cfg m n := by
  by_cases hc : i ≥ m.num_inodes ∨ i < cfg.root
  · rw [set_rejected cfg m i r hc]
  · rw [set_accepted cfg m i r (by omega) (by omega)]
    unfold slot
    refine get_set_other m.disk m.start_block _ i n _ (fun j hj => ?_) (by omega) hn hne
    rw [Block.setINode_apply, if_neg hj]

theorem slot_set_self (cfg : Config) (m : LinearINodeManager) (i : Nat) (r : INode)
    (hlo : cfg.root ≤ i) (hi : i < m.num_inodes) : slot cfg (m.set cfg i r).2 i = r := by
  rw [set_accepted cfg m i r hlo hi]
  simp [slot, Storage.get, Storage.set, Block.setINode]

theorem slot_release_other (cfg : Config) (m : LinearINodeManager) (i n : Nat)
    (hnum : m.num_inodes ≤ 2 ^ 64) (hn : n < 2 ^ 64) (hne : n ≠ i) :
    slot cfg (m.release cfg i).2 n = slot cfg m n := by
  by_cases hc : i ≥ m.num_inodes ∨ i < cfg.root
  · rw [release_rejected cfg m i hc]
  · rw [release_accepted cfg m i (by omega) (by omega)]
    unfold slot
    refine get_set_other m.disk m.start_block _ i n _ (fun j hj => ?_) (by omega) hn hne
    rw [Block.setType, Block.setINode_apply, if_neg hj]

/-! Sequences of calls. -/

theorem run_layout (cfg : Config) (m : LinearINodeManager) (c : Call) :
    (c.run cfg m).start_block = m.start_block ∧ (c.run cfg m).block_count = m.block_count ∧
      (c.run cfg m).num_inodes = m.num_inodes := by
  cases c with
  | reserve => exact ⟨rfl, rfl, rfl⟩
  | get i u =>
    by_cases hc : i ≥ m.num_inodes ∨ i < cfg.root <;>
      simp [Call.run, LinearINodeManager.get, hc]
  | set i r =>
    by_cases hc : i ≥ m.num_inodes ∨ i < cfg.root <;>
      simp [Call.run, LinearINodeManager.set, hc]
  | release i =>
    by_cases hc : i ≥ m.num_inodes ∨ i < cfg.root <;>
      simp [Call.run, LinearINodeManager.release, hc]

theorem run_slot (cfg : Config) (m : LinearINodeManager) (c : Call) (n : Nat)
    (hnum : m.num_inodes ≤ 2 ^ 64) (hn : n < 2 ^ 64)
    (h : ¬ c.writesTo n ∨ n < cfg.root) : slot cfg (c.run cfg m) n = slot cfg m n := by
  cases c with
  | reserve => rfl
  | get i u =>
    by_cases hc : i ≥ m.num_inodes ∨ i < cfg.root <;>
      simp [Call.run, LinearINodeManager.get, hc]
  | set i r =>
    by_cases hin : n = i
    · have hrej : i ≥ m.num_inodes ∨ i < cfg.root := by
        rcases h with h | h
        · exact absurd hin.symm h
        · exact Or.inr (hin ▸ h)
      simp only [Call.run]
      rw [set_rejected cfg m i r hrej]
    · exact slot_set_other cfg m i n r hnum hn hin
  | release i =>
    by_cases hin : n = i
    · have hrej : i ≥ m.num_inodes ∨ i < cfg.root := by
        rcases h with h | h
        · exact absurd hin.symm h
        · exact Or.inr (hin ▸ h)
      simp only [Call.run]
      rw [release_rejected cfg m i hrej]
    · exact slot_release_other cfg m i n hnum hn hin

theorem runCalls_layout (cfg : Config) (calls : List Call) :
    ∀ m : LinearINodeManager,
      (runCalls cfg m calls).start_block = m.start_block ∧
      (runCalls cfg m calls).block_count = m.block_count ∧
      (runCalls cfg m calls).num_inodes = m.num_inodes := by
  induction calls with
  | nil => intro m; exact ⟨rfl, rfl, rfl⟩
  | cons c cs ih =>
    intro m
    obtain ⟨h1, h2, h3⟩ := ih (c.run cfg m)
    obtain ⟨g1, g2, g3⟩ := run_layout cfg m c
    exact ⟨h1.trans g1, h2.trans g2, h3.trans g3⟩

theorem runCalls_slot (cfg : Config) (n : Nat) (hn : n < 2 ^ 64) (calls : List Call) :
    ∀ m : LinearINodeManager, m.num_inodes ≤ 2 ^ 64 →
      (∀ c ∈ calls, ¬ c.writesTo n ∨ n < cfg.root) →
      slot cfg (runCalls cfg m calls) n = slot cfg m n := by
  induction calls with
  | nil => intro m _ _; rfl
  | cons c cs ih =>
    intro m hnum h
    have hstep := run_slot cfg m c n hnum hn (h c (List.mem_cons_self _ _))
    have hnum1 : (c.run cfg m).num_inodes ≤ 2 ^ 64 := by
      rw [(run_layout cfg m c).2.2]; exact hnum
    have := ih (c.run cfg m) hnum1 (fun d hd => h d (List.mem_cons_of_mem _ hd))
    exact this.trans hstep

/-! Formatting. -/

theorem reload_ok (cfg : Config) (m : LinearINodeManager)
    (hdiv : cfg.BLOCK_SIZE % cfg.INODE_SIZE = 0) :
    m.reload cfg = (.ok (),
      { disk := m.disk,
        start_block := u64 (cfg.superblock (m.disk.get 0)).inode_block_start,
        block_count := u64 (cfg.superblock (m.disk.get 0)).inode_block_count,
        num_inodes := u64 (cfg.num_inodes_per_block *
          u64 (cfg.superblock (m.disk.get 0)).inode_block_count) }) := by
  simp [LinearINodeManager.reload, hdiv]

theorem reload_failed (cfg : Config) (m : LinearINodeManager)
    (hdiv : ¬ cfg.BLOCK_SIZE % cfg.INODE_SIZE = 0) :
    m.reload cfg = (.error .assertion_failed, m) := by
  simp [LinearINodeManager.reload, hdiv]

theorem reload_loaded (cfg : Config) (m : LinearINodeManager)
    (hdiv : cfg.BLOCK_SIZE % cfg.INODE_SIZE = 0) : Loaded cfg (m.reload cfg).2 := by
  rw [reload_ok cfg m hdiv]
  exact ⟨u64_lt _, u64_lt _, rfl⟩

theorem mkfs_ok_iff (cfg : Config) (uninit : Block) (m : LinearINodeManager) :
    (m.mkfs cfg uninit).1 = .ok () ↔ cfg.BLOCK_SIZE % cfg.INODE_SIZE = 0 := by
  by_cases hdiv : cfg.BLOCK_SIZE % cfg.INODE_SIZE = 0
  · simp [LinearINodeManager.mkfs, reload_ok cfg m hdiv, hdiv]
  · simp [LinearINodeManager.mkfs, reload_failed cfg m hdiv, hdiv]

theorem mkfs_layout (cfg : Config) (uninit : Block) (m : LinearINodeManager)
    (hdiv : cfg.BLOCK_SIZE % cfg.INODE_SIZE = 0) :
    (m.mkfs cfg uninit).2.start_block = u64 (cfg.superblock (m.disk.get 0)).inode_block_start ∧
      (m.mkfs cfg uninit).2.block_count =
        u64 (cfg.superblock (m.disk.get 0)).inode_block_count ∧
      (m.mkfs cfg uninit).2.num_inodes = u64 (cfg.num_inodes_per_block *
        u64 (cfg.superblock (m.disk.get 0)).inode_block_count) := by
  simp [LinearINodeManager.mkfs, reload_ok cfg m hdiv]

theorem mkfs_loaded (cfg : Config) (uninit : Block) (m : LinearINodeManager)
    (hdiv : cfg.BLOCK_SIZE % cfg.INODE_SIZE = 0) : Loaded cfg (m.mkfs cfg uninit).2 := by
  obtain ⟨h1, h2, h3⟩ := mkfs_layout cfg uninit m hdiv
  refine ⟨?_, ?_, ?_⟩
  · rw [h1]; exact u64_lt _
  · rw [h2]; exact u64_lt _
  · rw [h3, h2]

/-- The first block of the region after `mkfs`: zero-filled, with the tags of
records 0 and 1 set to `RESERVED`. -/
theorem mkfs_first_block (cfg : Config) (uninit : Block) (m : LinearINodeManager)
    (hdiv : cfg.BLOCK_SIZE % cfg.INODE_SIZE = 0) :
    (m.mkfs cfg uninit).2.disk.get (m.mkfs cfg uninit).2.start_block =
      (Block.zero.setType 0 cfg.RESERVED).setType 1 cfg.RESERVED := by
  simp [LinearINodeManager.mkfs, reload_ok cfg m hdiv, Storage.get, Storage.set]

theorem first_block_apply (cfg : Config) (j : Nat) :
    ((Block.zero.setType 0 cfg.RESERVED).setType 1 cfg.RESERVED) j =
      if j = 1 ∨ j = 0 then ⟨cfg.RESERVED, 0⟩ else ⟨0, 0⟩ := by
  by_cases h1 : j = 1
  · subst h1; simp [Block.setType, Block.setINode, Block.zero]
  · by_cases h0 : j = 0
    · subst h0; simp [Block.setType, Block.setINode, Block.zero]
    · simp [Block.setType, Block.setINode, Block.zero, h1, h0]

/-! The loops of `mkfs`. -/

theorem tagBlock_before (cfg : Config) :
    ∀ (remaining j0 : Nat) (block : Block) (j : Nat), j < j0 →
      LinearINodeManager.mkfs.tagBlock cfg remaining j0 block j = block j := by
  intro remaining
  induction remaining with
  | zero => intro j0 block j _; rfl
  | succ n ih =>
    intro j0 block j hj
    simp only [LinearINodeManager.mkfs.tagBlock]
    rw [ih (j0 + 1) _ j (by omega), Block.setType, Block.setINode_apply, if_neg (by omega)]

theorem tagBlock_type (cfg : Config) :
    ∀ (remaining j0 : Nat) (block : Block) (j : Nat), j0 ≤ j → j < j0 + remaining →
      (LinearINodeManager.mkfs.tagBlock cfg remaining j0 block j).type = cfg.RESERVED := by
  intro remaining
  induction remaining with
  | zero => intro j0 block j h1 h2; omega
  | succ n ih =>
    intro j0 block j h1 h2
    simp only [LinearINodeManager.mkfs.tagBlock]
    by_cases hj : j = j0
    · subst hj
      rw [tagBlock_before cfg n (j + 1) _ j (by omega), Block.setType, Block.setINode_apply,
        if_pos rfl]
    · exact ih (j0 + 1) _ j (by omega) (by omega)

theorem reservedLoop_miss (cfg : Config) (start_block : Nat) :
    ∀ (remaining i : Nat) (block : Block) (disk : Storage) (x : Nat),
      (∀ c, i ≤ c → c < i + remaining → u64 (start_block + c) ≠ x) →
      (LinearINodeManager.mkfs.reservedLoop cfg start_block remaining i block disk).2.get x =
        disk.get x := by
  intro remaining
  induction remaining with
  | zero => intro i block disk x _; rfl
  | succ n ih =>
    intro i block disk x h
    simp only [LinearINodeManager.mkfs.reservedLoop]
    rw [ih (i + 1) _ _ x (fun c h1 h2 => h c (by omega) (by omega)), Storage.get_set,
      if_neg (fun hx => h i (le_refl _) (by omega) hx.symm)]

theorem reservedLoop_hit (cfg : Config) (start_block : Nat) :
    ∀ (remaining i : Nat) (block : Block) (disk : Storage) (x : Nat),
      (∃ c, i ≤ c ∧ c < i + remaining ∧ u64 (start_block + c) = x) →
      ∀ j, j < cfg.num_inodes_per_block →
        ((LinearINodeManager.mkfs.reservedLoop cfg start_block remaining i block disk).2.get x
          j).type = cfg.RESERVED := by
  intro remaining
  induction remaining with
  | zero => rintro i block disk x ⟨c, h1, h2, _⟩; omega
  | succ n ih =>
    rintro i block disk x ⟨c, h1, h2, h3⟩ j hj
    simp only [LinearINodeManager.mkfs.reservedLoop]
    by_cases hlater : ∃ d, i + 1 ≤ d ∧ d < i + 1 + n ∧ u64 (start_block + d) = x
    · exact ih (i + 1) _ _ x hlater j hj
    · have hmiss : ∀ d, i + 1 ≤ d → d < i + 1 + n → u64 (start_block + d) ≠ x :=
        fun d hd1 hd2 hd3 => hlater ⟨d, hd1, hd2, hd3⟩
      have hci : c = i := by
        by_contra hne
        exact hmiss c (by omega) (by omega) h3
      subst hci
      rw [reservedLoop_miss cfg start_block n (c + 1) _ _ x hmiss, Storage.get_set,
        if_pos h3.symm]
      exact tagBlock_type cfg _ 0 block j (Nat.zero_le _) (by omega)

theorem zeroLoop_miss (start_block : Nat) (block : Block) :
    ∀ (remaining i : Nat) (disk : Storage) (x : Nat),
      (∀ c, i ≤ c → c < i + remaining → u64 (start_block + c) ≠ x) →
      (LinearINodeManager.mkfs.zeroLoop start_block block remaining i disk).get x =
        disk.get x := by
  intro remaining
  induction remaining with
  | zero => intro i disk x _; rfl
  | succ n ih =>
    intro i disk x h
    simp only [LinearINodeManager.mkfs.zeroLoop]
    rw [ih (i + 1) _ x (fun c h1 h2 => h c (by omega) (by omega)), Storage.get_set,
      if_neg (fun hx => h i (le_refl _) (by omega) hx.symm)]

theorem zeroLoop_hit (start_block : Nat) (block : Block) :
    ∀ (remaining i : Nat) (disk : Storage) (x : Nat),
      (∃ c, i ≤ c ∧ c < i + remaining ∧ u64 (start_block + c) = x) →
      (LinearINodeManager.mkfs.zeroLoop start_block block remaining i disk).get x = block := by
  intro remaining
  induction remaining with
  | zero => rintro i disk x ⟨c, h1, h2, _⟩; omega
  | succ n ih =>
    rintro i disk x ⟨c, h1, h2, h3⟩
    simp only [LinearINodeManager.mkfs.zeroLoop]
    by_cases hlater : ∃ d, i + 1 ≤ d ∧ d < i + 1 + n ∧ u64 (start_block + d) = x
    · exact ih (i + 1) _ x hlater
    · have hmiss : ∀ d, i + 1 ≤ d → d < i + 1 + n → u64 (start_block + d) ≠ x :=
        fun d hd1 hd2 hd3 => hlater ⟨d, hd1, hd2, hd3⟩
      have hci : c = i := by
        by_contra hne
        exact hmiss c (by omega) (by omega) h3
      subst hci
      rw [zeroLoop_miss start_block block n (c + 1) _ x hmiss, Storage.get_set, if_pos h3.symm]

theorem mkfs_disk (cfg : Config) (uninit : Block) (m : LinearINodeManager)
    (hdiv : cfg.BLOCK_SIZE % cfg.INODE_SIZE = 0) :
    (m.mkfs cfg uninit).2.disk =
      (LinearINodeManager.mkfs.zeroLoop (m.mkfs cfg uninit).2.start_block Block.zero
        ((m.mkfs cfg uninit).2.block_count - mkfsBound (m.mkfs cfg uninit).2)
        (mkfsBound (m.mkfs cfg uninit).2)
        (LinearINodeManager.mkfs.reservedLoop cfg (m.mkfs cfg uninit).2.start_block
          (mkfsBound (m.mkfs cfg uninit).2 - 1) 1 uninit m.disk).2).set
        (m.mkfs cfg uninit).2.start_block
        ((Block.zero.setType 0 cfg.RESERVED).setType 1 cfg.RESERVED) := by
  simp [LinearINodeManager.mkfs, reload_ok cfg m hdiv, mkfsBound]

theorem mkfsBound_le (m : LinearINodeManager) : mkfsBound m ≤ m.block_count := by
  unfold mkfsBound u64
  have h1 : m.block_count * 32 % 2 ^ 64 ≤ m.block_count * 32 := Nat.mod_le _ _
  have h2 : m.block_count * 32 % 2 ^ 64 * 8 % 2 ^ 64 ≤ m.block_count * 32 % 2 ^ 64 * 8 :=
    Nat.mod_le _ _
  omega

/-- The blocks of the region after `mkfs`, other than the first one: tagged
`RESERVED` throughout below the loop bound, zero-filled from the bound on. -/
theorem mkfs_other_blocks (cfg : Config) (uninit : Block) (m : LinearINodeManager)
    (hdiv : cfg.BLOCK_SIZE % cfg.INODE_SIZE = 0) (b : Nat) (hb1 : 1 ≤ b)
    (hb : b < (m.mkfs cfg uninit).2.block_count) :
    (b < mkfsBound (m.mkfs cfg uninit).2 → ∀ j, j < cfg.num_inodes_per_block →
        ((m.mkfs cfg uninit).2.disk.get (u64 ((m.mkfs cfg uninit).2.start_block + b)) j).type =
          cfg.RESERVED) ∧
      (mkfsBound (m.mkfs cfg uninit).2 ≤ b →
        (m.mkfs cfg uninit).2.disk.get (u64 ((m.mkfs cfg uninit).2.start_block + b)) =
          Block.zero) := by
  obtain ⟨hstart, hcount, _⟩ := mkfs_loaded cfg uninit m hdiv
  have hb64 : b < 2 ^ 64 := by omega
  have hne : ¬ u64 ((m.mkfs cfg uninit).2.start_block + b) = (m.mkfs cfg uninit).2.start_block := by
    intro h
    have h0 : u64 ((m.mkfs cfg uninit).2.start_block + b) =
        u64 ((m.mkfs cfg uninit).2.start_block + 0) := by
      rw [h, Nat.add_zero, u64_of_lt hstart]
    have := u64_add_inj hb64 (by norm_num) h0
    omega
  rw [mkfs_disk cfg uninit m hdiv, Storage.get_set, if_neg hne]
  constructor
  · intro hlt j hj
    rw [zeroLoop_miss _ _ _ _ _ _ (fun c h1 h2 hc => by
      have := u64_add_inj (a := c) (b := b) (by omega) hb64 hc
      omega)]
    exact reservedLoop_hit cfg _ _ 1 _ _ _ ⟨b, hb1, by omega, rfl⟩ j hj
  · intro hge
    exact zeroLoop_hit _ _ _ _ _ _ ⟨b, hge, by omega, rfl⟩

/-! Exhausting the free slots. -/

theorem loaded_of_layout_eq {cfg : Config} {m m1 : LinearINodeManager} (hL : Loaded cfg m)
    (h1 : m1.start_block = m.start_block) (h2 : m1.block_count = m.block_count)
    (h3 : m1.num_inodes = m.num_inodes) : Loaded cfg m1 := by
  unfold Loaded at *
  rw [h1, h2, h3]
  exact hL

theorem set_layout (cfg : Config) (m : LinearINodeManager) (i : Nat) (r : INode) :
    (m.set cfg i r).2.start_block = m.start_block ∧
      (m.set cfg i r).2.block_count = m.block_count ∧
      (m.set cfg i r).2.num_inodes = m.num_inodes :=
  run_layout cfg m (.set i r)

theorem mem_freeSlots (cfg : Config) (m : LinearINodeManager) (n : Nat) :
    n ∈ freeSlots cfg m ↔ n < m.num_inodes ∧ (slot cfg m n).type = cfg.FREE := by
  simp [freeSlots]

/-- When some slot is free, `reserve` succeeds with a free slot. -/
theorem reserve_ok_of_free (cfg : Config) (m : LinearINodeManager) (hL : Loaded cfg m)
    (hW : NoWrap cfg m) (n0 : Nat) (hn0 : n0 ∈ freeSlots cfg m) :
    ∃ n, (m.reserve cfg).1 = .ok n ∧ n ∈ freeSlots cfg m := by
  cases hres : (m.reserve cfg).1 with
  | error e =>
    exfalso
    have he : e = .OutOfINodes := ((loop_eq_error cfg m m.block_count 0 e).1 hres).1
    subst he
    have hnone := (blocks_iff_slots cfg m hL hW).1 ((reserve_error_iff_blocks cfg m).1 hres)
    obtain ⟨h1, h2⟩ := (mem_freeSlots cfg m n0).1 hn0
    exact hnone n0 h1 h2
  | ok n =>
    refine ⟨n, rfl, ?_⟩
    obtain ⟨b, j, hb, hj, hn, hfree, _, _⟩ := reserve_ok_found cfg m n hW hres
    rw [mem_freeSlots, hn, slot_mul_add cfg m b j hj]
    refine ⟨?_, hfree⟩
    obtain ⟨_, _, hnum⟩ := hL
    unfold NoWrap at hW
    rw [hnum, u64_of_lt hW]
    exact mul_add_lt_mul hb hj

theorem freeSlots_set (cfg : Config) (m : LinearINodeManager) (n : Nat) (r : INode)
    (hL : Loaded cfg m) (hlo : cfg.root ≤ n) (hn : n < m.num_inodes)
    (hr : r.type ≠ cfg.FREE) :
    freeSlots cfg (m.set cfg n r).2 = (freeSlots cfg m).erase n := by
  have hnum64 : m.num_inodes ≤ 2 ^ 64 := by
    rw [hL.2.2]; exact le_of_lt (u64_lt _)
  ext k
  rw [Finset.mem_erase, mem_freeSlots, mem_freeSlots, (set_layout cfg m n r).2.2]
  by_cases hk : k = n
  · subst hk
    rw [slot_set_self cfg m k r hlo hn]
    constructor
    · intro h; exact absurd h.2 hr
    · intro h; exact absurd rfl h.1
  · have hk64 : k < 2 ^ 64 ∨ ¬ k < m.num_inodes := by omega
    constructor
    · rintro ⟨h1, h2⟩
      rw [slot_set_other cfg m n k r hnum64 (by omega) hk] at h2
      exact ⟨hk, h1, h2⟩
    · rintro ⟨_, h1, h2⟩
      rw [slot_set_other cfg m n k r hnum64 (by omega) hk]
      exact ⟨h1, h2⟩

theorem allocate_of_reserve_ok (cfg : Config) (m : LinearINodeManager) (r : INode) (n : Nat)
    (hres : (m.reserve cfg).1 = .ok n) (hlo : cfg.root ≤ n) (hn : n < m.num_inodes) :
    allocate cfg m r = (.ok n, (m.set cfg n r).2) := by
  have hfull : m.reserve cfg = (.ok n, m) := by
    rw [← hres]; rfl
  simp [allocate, hfull, set_accepted cfg m n r hlo hn]

/-- From a state with as many free slots as there are records to store, none of
them below `root`, every round of allocation succeeds and the allocator is
exhausted afterwards. -/
theorem allocateAll_exhausts (cfg : Config) :
    ∀ (inodes : List INode) (m : LinearINodeManager), Loaded cfg m → NoWrap cfg m →
      (∀ n ∈ freeSlots cfg m, cfg.root ≤ n) →
      (freeSlots cfg m).card = inodes.length →
      (∀ r ∈ inodes, r.type ≠ cfg.FREE) →
      (∀ o ∈ (allocateAll cfg m inodes).1, ∃ id, o = Except.ok id) ∧
        ((allocateAll cfg m inodes).2.reserve cfg).1 = .error .OutOfINodes := by
  intro inodes
  induction inodes with
  | nil =>
    intro m hL hW _ hcard _
    refine ⟨fun o ho => by simp [allocateAll] at ho, ?_⟩
    simp only [allocateAll]
    rw [reserve_error_iff_blocks, blocks_iff_slots cfg m hL hW]
    intro n hn hfree
    have hmem : n ∈ freeSlots cfg m := (mem_freeSlots cfg m n).2 ⟨hn, hfree⟩
    rw [List.length_nil, Finset.card_eq_zero] at hcard
    rw [hcard] at hmem
    exact absurd hmem (Finset.not_mem_empty _)
  | cons r rest ih =>
    intro m hL hW hroot hcard hrs
    have hpos : 0 < (freeSlots cfg m).card := by rw [hcard, List.length_cons]; omega
    obtain ⟨n0, hn0⟩ := Finset.card_pos.1 hpos
    obtain ⟨n, hres, hnmem⟩ := reserve_ok_of_free cfg m hL hW n0 hn0
    have hlo := hroot n hnmem
    have hn := ((mem_freeSlots cfg m n).1 hnmem).1
    have halloc := allocate_of_reserve_ok cfg m r n hres hlo hn
    have hr : r.type ≠ cfg.FREE := hrs r (List.mem_cons_self _ _)
    obtain ⟨l1, l2, l3⟩ := set_layout cfg m n r
    have hL1 : Loaded cfg (m.set cfg n r).2 := loaded_of_layout_eq hL l1 l2 l3
    have hW1 : NoWrap cfg (m.set cfg n r).2 := by
      unfold NoWrap at *; rw [l2]; exact hW
    have hfs := freeSlots_set cfg m n r hL hlo hn hr
    have hroot1 : ∀ k ∈ freeSlots cfg (m.set cfg n r).2, cfg.root ≤ k := by
      intro k hk
      rw [hfs] at hk
      exact hroot k (Finset.mem_of_mem_erase hk)
    have hcard1 : (freeSlots cfg (m.set cfg n r).2).card = rest.length := by
      rw [hfs, Finset.card_erase_of_mem hnmem, hcard, List.length_cons]
      rfl
    obtain ⟨ih1, ih2⟩ := ih (m.set cfg n r).2 hL1 hW1 hroot1 hcard1
      (fun x hx => hrs x (List.mem_cons_of_mem _ hx))
    simp only [allocateAll, halloc]
    refine ⟨fun o ho => ?_, ih2⟩
    rcases List.mem_cons.1 ho with h | h
    · exact ⟨n, h⟩
    · exact ih1 o h

theorem reserve_ok_slot_free (cfg : Config) (m : LinearINodeManager) (n : Nat)
    (hW : NoWrap cfg m) (h : (m.reserve cfg).1 = .ok n) : (slot cfg m n).type = cfg.FREE := by
  obtain ⟨b, j, _, hj, hn, hfree, _, _⟩ := reserve_ok_found cfg m n hW h
  rw [hn, slot_mul_add cfg m b j hj]
  exact hfree

/-! The slots after `mkfs`. -/

theorem mkfs_slot_zero (cfg : Config) (uninit : Block) (m : LinearINodeManager)
    (hdiv : cfg.BLOCK_SIZE % cfg.INODE_SIZE = 0) :
    (slot cfg (m.mkfs cfg uninit).2 0).type = cfg.RESERVED := by
  have hstart := (mkfs_loaded cfg uninit m hdiv).1
  unfold slot
  rw [Nat.zero_div, Nat.zero_mod, Nat.add_zero, u64_of_lt hstart,
    mkfs_first_block cfg uninit m hdiv, first_block_apply]
  simp

theorem mkfs_slot_one (cfg : Config) (uninit : Block) (m : LinearINodeManager)
    (hdiv : cfg.BLOCK_SIZE % cfg.INODE_SIZE = 0) (hper : 2 ≤ cfg.num_inodes_per_block) :
    (slot cfg (m.mkfs cfg uninit).2 1).type = cfg.RESERVED := by
  have hstart := (mkfs_loaded cfg uninit m hdiv).1
  unfold slot
  rw [Nat.div_eq_of_lt (by omega), Nat.mod_eq_of_lt (by omega), Nat.add_zero, u64_of_lt hstart,
    mkfs_first_block cfg uninit m hdiv, first_block_apply]
  simp

/-- Which slots `mkfs` leaves tagged `FREE`. -/
theorem mkfs_slot_free_iff (cfg : Config) (uninit : Block) (m : LinearINodeManager)
    (hdiv : cfg.BLOCK_SIZE % cfg.INODE_SIZE = 0) (hper : 2 ≤ cfg.num_inodes_per_block)
    (hfree : cfg.FREE = 0) (hres : cfg.RESERVED ≠ cfg.FREE)
    (hW : NoWrap cfg (m.mkfs cfg uninit).2) (n : Nat)
    (hn : n < (m.mkfs cfg uninit).2.num_inodes) :
    (slot cfg (m.mkfs cfg uninit).2 n).type = cfg.FREE ↔
      (2 ≤ n ∧ n < cfg.num_inodes_per_block) ∨
        max (mkfsBound (m.mkfs cfg uninit).2) 1 * cfg.num_inodes_per_block ≤ n := by
  obtain ⟨hstart, _, hnum⟩ := mkfs_loaded cfg uninit m hdiv
  unfold NoWrap at hW
  rw [u64_of_lt hW] at hnum
  have hP : 0 < cfg.num_inodes_per_block := by omega
  have hdm := div_mod_decomp cfg.num_inodes_per_block n
  have hmod : n % cfg.num_inodes_per_block < cfg.num_inodes_per_block := Nat.mod_lt _ hP
  have hb : n / cfg.num_inodes_per_block < (m.mkfs cfg uninit).2.block_count := by
    rw [hnum] at hn
    exact Nat.div_lt_of_lt_mul hn
  have hmax : cfg.num_inodes_per_block ≤
      max (mkfsBound (m.mkfs cfg uninit).2) 1 * cfg.num_inodes_per_block :=
    Nat.le_mul_of_pos_left _ (by omega)
  unfold slot
  rcases Nat.eq_zero_or_pos (n / cfg.num_inodes_per_block) with hb0 | hb1
  · have hnP : n < cfg.num_inodes_per_block := by
      rw [hb0] at hdm; omega
    rw [hb0, Nat.mod_eq_of_lt hnP, Nat.add_zero, u64_of_lt hstart,
      mkfs_first_block cfg uninit m hdiv, first_block_apply]
    by_cases h01 : n = 1 ∨ n = 0
    · rw [if_pos h01]
      constructor
      · intro h; exact absurd h hres
      · intro h; omega
    · rw [if_neg h01]
      constructor
      · intro _; left; omega
      · intro _; exact hfree.symm
  · have hnP : cfg.num_inodes_per_block ≤ n := by
      have : 1 * cfg.num_inodes_per_block ≤
          (n / cfg.num_inodes_per_block) * cfg.num_inodes_per_block :=
        Nat.mul_le_mul_right _ hb1
      omega
    obtain ⟨hlow, hhigh⟩ := mkfs_other_blocks cfg uninit m hdiv _ hb1 hb
    by_cases hlt : n / cfg.num_inodes_per_block < mkfsBound (m.mkfs cfg uninit).2
    · rw [hlow hlt _ hmod]
      have h1 : (n / cfg.num_inodes_per_block + 1) * cfg.num_inodes_per_block ≤
          mkfsBound (m.mkfs cfg uninit).2 * cfg.num_inodes_per_block :=
        Nat.mul_le_mul_right _ hlt
      have h2 : (n / cfg.num_inodes_per_block + 1) * cfg.num_inodes_per_block =
          (n / cfg.num_inodes_per_block) * cfg.num_inodes_per_block +
            cfg.num_inodes_per_block := by ring
      have h3 : max (mkfsBound (m.mkfs cfg uninit).2) 1 = mkfsBound (m.mkfs cfg uninit).2 :=
        max_eq_left (by omega)
      rw [h3]
      constructor
      · intro h; exact absurd h hres
      · intro h; omega
    · rw [hhigh (by omega)]
      have h1 : max (mkfsBound (m.mkfs cfg uninit).2) 1 * cfg.num_inodes_per_block ≤
          (n / cfg.num_inodes_per_block) * cfg.num_inodes_per_block :=
        Nat.mul_le_mul_right _ (max_le (by omega) hb1)
      constructor
      · intro _; right; omega
      · intro _; exact hfree.symm

/-- The number of slots `mkfs` leaves tagged `FREE`. -/
theorem card_freeSlots_mkfs (cfg : Config) (uninit : Block) (m : LinearINodeManager)
    (hdiv : cfg.BLOCK_SIZE % cfg.INODE_SIZE = 0) (hper : 2 ≤ cfg.num_inodes_per_block)
    (hfree : cfg.FREE = 0) (hres : cfg.RESERVED ≠ cfg.FREE)
    (hW : NoWrap cfg (m.mkfs cfg uninit).2) :
    (freeSlots cfg (m.mkfs cfg uninit).2).card = freeAfterMkfs cfg (m.mkfs cfg uninit).2 := by
  obtain ⟨_, _, hnum⟩ := mkfs_loaded cfg uninit m hdiv
  have hW0 := hW
  unfold NoWrap at hW
  rw [u64_of_lt hW] at hnum
  rcases Nat.eq_zero_or_pos (m.mkfs cfg uninit).2.block_count with h0 | hpos
  · have hz : (m.mkfs cfg uninit).2.num_inodes = 0 := by rw [hnum, h0, Nat.mul_zero]
    simp [freeSlots, freeAfterMkfs, hz]
  · have hPle : cfg.num_inodes_per_block ≤ (m.mkfs cfg uninit).2.num_inodes := by
      rw [hnum]; exact Nat.le_mul_of_pos_right _ hpos
    have hmax1 : cfg.num_inodes_per_block ≤
        max (mkfsBound (m.mkfs cfg uninit).2) 1 * cfg.num_inodes_per_block :=
      Nat.le_mul_of_pos_left _ (by omega)
    have hmax2 : max (mkfsBound (m.mkfs cfg uninit).2) 1 * cfg.num_inodes_per_block ≤
        (m.mkfs cfg uninit).2.num_inodes := by
      rw [hnum, Nat.mul_comm cfg.num_inodes_per_block]
      exact Nat.mul_le_mul_right _ (max_le (mkfsBound_le _) hpos)
    have hset : freeSlots cfg (m.mkfs cfg uninit).2 =
        Finset.Ico 2 cfg.num_inodes_per_block ∪
          Finset.Ico (max (mkfsBound (m.mkfs cfg uninit).2) 1 * cfg.num_inodes_per_block)
            (m.mkfs cfg uninit).2.num_inodes := by
      ext n
      rw [mem_freeSlots, Finset.mem_union, Finset.mem_Ico, Finset.mem_Ico]
      constructor
      · rintro ⟨h1, h2⟩
        rcases (mkfs_slot_free_iff cfg uninit m hdiv hper hfree hres hW0 n h1).1 h2 with h | h
        · exact Or.inl h
        · exact Or.inr ⟨h, h1⟩
      · intro h
        have hn : n < (m.mkfs cfg uninit).2.num_inodes := by omega
        refine ⟨hn, (mkfs_slot_free_iff cfg uninit m hdiv hper hfree hres hW0 n hn).2 ?_⟩
        rcases h with h | h
        · exact Or.inl h
        · exact Or.inr h.1
    have hdisj : Disjoint (Finset.Ico 2 cfg.num_inodes_per_block)
        (Finset.Ico (max (mkfsBound (m.mkfs cfg uninit).2) 1 * cfg.num_inodes_per_block)
          (m.mkfs cfg uninit).2.num_inodes) := by
      rw [Finset.disjoint_left]
      intro n h1 h2
      rw [Finset.mem_Ico] at h1 h2
      omega
    have hsub : (max (mkfsBound (m.mkfs cfg uninit).2) 1 - 1) * cfg.num_inodes_per_block =
        max (mkfsBound (m.mkfs cfg uninit).2) 1 * cfg.num_inodes_per_block -
          cfg.num_inodes_per_block := by
      rw [Nat.sub_mul, Nat.one_mul]
    rw [hset, Finset.card_union_of_disjoint hdisj, Nat.card_Ico, Nat.card_Ico, freeAfterMkfs,
      hsub]
    omega

theorem release_layout (cfg : Config) (m : LinearINodeManager) (i : Nat) :
    (m.release cfg i).2.start_block = m.start_block ∧
      (m.release cfg i).2.block_count = m.block_count ∧
      (m.release cfg i).2.num_inodes = m.num_inodes :=
  run_layout cfg m (.release i)

theorem release_get_self (cfg : Config) (m : LinearINodeManager) (i : Nat)
    (hlo : cfg.root ≤ i) (hi : i < m.num_inodes) :
    (m.release cfg i).2.disk.get (u64 (m.start_block + i / cfg.num_inodes_per_block))
        (i % cfg.num_inodes_per_block) =
      { m.disk.get (u64 (m.start_block + i / cfg.num_inodes_per_block))
          (i % cfg.num_inodes_per_block) with type := cfg.FREE } := by
  rw [release_accepted cfg m i hlo hi]
  simp [Storage.get, Storage.set, Block.setType, Block.setINode]

theorem release_get_other (cfg : Config) (m : LinearINodeManager) (i k j : Nat)
    (hkj : ¬ (k = u64 (m.start_block + i / cfg.num_inodes_per_block) ∧
      j = i % cfg.num_inodes_per_block)) :
    (m.release cfg i).2.disk.get k j = m.disk.get k j := by
  by_cases hc : i ≥ m.num_inodes ∨ i < cfg.root
  · rw [release_rejected cfg m i hc]
  · rw [release_accepted cfg m i (by omega) (by omega)]
    show (Storage.set _ _ _).get k j = _
    rw [Storage.get_set]
    by_cases hk : k = u64 (m.start_block + i / cfg.num_inodes_per_block)
    · have hj : ¬ j = i % cfg.num_inodes_per_block := fun h => hkj ⟨hk, h⟩
      rw [if_pos hk, Block.setType, Block.setINode_apply, if_neg hj, hk]
    · rw [if_neg hk]

theorem allocateAll_length (cfg : Config) :
    ∀ (inodes : List INode) (m : LinearINodeManager),
      (allocateAll cfg m inodes).1.length = inodes.length := by
  intro inodes
  induction inodes with
  | nil => intro m; rfl
  | cons r rest ih =>
    intro m
    simp only [allocateAll, List.length_cons, ih]

/-! The claims. -/

/-- C1: for every disk, every cached layout and every identifier `i` accepted by
the bounds check (`root <= i < num_inodes`; with `root = 1` this contains the
allocatable range `[2, num_inodes)`), `set(i, r)` succeeds and a following
`get(i)` succeeds and hands back exactly `r`, leaving the manager as `set` left
it. -/
theorem set_then_get (cfg : Config) (m : LinearINodeManager) (i : Nat)
    (r user_inode : INode) (hlo : cfg.root ≤ i) (hi : i < m.num_inodes) :
    (m.set cfg i r).1 = .ok () ∧
      (m.set cfg i r).2.get cfg i user_inode = (.ok (), r, (m.set cfg i r).2) := by
  have hc : ¬ (i ≥ m.num_inodes ∨ i < cfg.root) := by omega
  simp [LinearINodeManager.set, LinearINodeManager.get, hc, Storage.get, Storage.set,
    Block.setINode]

theorem set_then_get_witness :
    (exampleConfig.root ≤ 5 ∧ 5 < (exampleFormatted 3).num_inodes) ∧
      (((exampleFormatted 3).set exampleConfig 5 ⟨7, 99⟩).1 = .ok () ∧
        ((exampleFormatted 3).set exampleConfig 5 ⟨7, 99⟩).2.get exampleConfig 5 ⟨0, 0⟩ =
          (.ok (), ⟨7, 99⟩, ((exampleFormatted 3).set exampleConfig 5 ⟨7, 99⟩).2)) :=
  ⟨⟨by decide, by decide⟩,
    set_then_get exampleConfig (exampleFormatted 3) 5 ⟨7, 99⟩ ⟨0, 0⟩ (by decide) (by decide)⟩

/-- C2, as stated, fails for identifier 1: with `root = 1`, on the freshly
formatted example region, where slot 1 is tagged `RESERVED`, `get(1)` succeeds
and serves slot 1, `set(1, r)` succeeds and overwrites slot 1, and `release(1)`
succeeds and tags slot 1 `FREE`. -/
theorem reserved_ids_rejected_counterexample :
    exampleConfig.root = 1 ∧ Loaded exampleConfig (exampleFormatted 3) ∧
      (slot exampleConfig (exampleFormatted 3) 1).type = exampleConfig.RESERVED ∧
      ((exampleFormatted 3).get exampleConfig 1 ⟨7, 99⟩).1 = .ok () ∧
      ((exampleFormatted 3).get exampleConfig 1 ⟨7, 99⟩).2.1 = ⟨1, 0⟩ ∧
      ((exampleFormatted 3).set exampleConfig 1 ⟨7, 99⟩).1 = .ok () ∧
      slot exampleConfig ((exampleFormatted 3).set exampleConfig 1 ⟨7, 99⟩).2 1 = ⟨7, 99⟩ ∧
      ((exampleFormatted 3).release exampleConfig 1).1 = .ok () ∧
      (slot exampleConfig ((exampleFormatted 3).release exampleConfig 1).2 1).type =
        exampleConfig.FREE := by
  decide

/-- C2, amended: with `root = 1`, for every disk and every cached layout,
`get`, `set` and `release` called with identifier 0 fail with the out-of-range
error and leave the manager, the disk and the record of the caller as they
were; identifier 1, the root, passes the bounds check of all three whenever
`1 < num_inodes`. -/
theorem root_guard (cfg : Config) (m : LinearINodeManager) (r user_inode : INode)
    (hroot : cfg.root = 1) :
    (m.get cfg 0 user_inode = (.error .out_of_range, user_inode, m) ∧
        m.set cfg 0 r = (.error .out_of_range, m) ∧
        m.release cfg 0 = (.error .out_of_range, m)) ∧
      (1 < m.num_inodes →
        (m.get cfg 1 user_inode).1 = .ok () ∧ (m.set cfg 1 r).1 = .ok () ∧
          (m.release cfg 1).1 = .ok ()) := by
  refine ⟨?_, fun h1 => ?_⟩
  · simp [LinearINodeManager.get, LinearINodeManager.set, LinearINodeManager.release, hroot]
  · have hc : ¬ (1 ≥ m.num_inodes ∨ 1 < cfg.root) := by omega
    simp [LinearINodeManager.get, LinearINodeManager.set, LinearINodeManager.release, hc]

theorem root_guard_witness :
    (exampleConfig.root = 1 ∧ 1 < (exampleFormatted 3).num_inodes) ∧
      ((exampleFormatted 3).get exampleConfig 0 ⟨7, 99⟩ =
            (.error .out_of_range, ⟨7, 99⟩, exampleFormatted 3) ∧
          (exampleFormatted 3).set exampleConfig 0 ⟨5, 6⟩ =
            (.error .out_of_range, exampleFormatted 3) ∧
          (exampleFormatted 3).release exampleConfig 0 =
            (.error .out_of_range, exampleFormatted 3)) ∧
        (((exampleFormatted 3).get exampleConfig 1 ⟨7, 99⟩).1 = .ok () ∧
            ((exampleFormatted 3).set exampleConfig 1 ⟨5, 6⟩).1 = .ok () ∧
            ((exampleFormatted 3).release exampleConfig 1).1 = .ok ()) :=
  ⟨⟨rfl, by decide⟩, (root_guard exampleConfig (exampleFormatted 3) ⟨5, 6⟩ ⟨7, 99⟩ rfl).1,
    (root_guard exampleConfig (exampleFormatted 3) ⟨5, 6⟩ ⟨7, 99⟩ rfl).2 (by decide)⟩

/-- C3, as stated, fails when the slot count wraps: the manager constructed on
the zero-filled example disk whose superblock announces `2 ^ 62` blocks of four
records has loaded `num_inodes = 4 * 2 ^ 62 mod 2 ^ 64 = 0`, and its `reserve()`
succeeds with identifier 0, which is not below `num_inodes`. -/
theorem reserve_first_fit_counterexample :
    Loaded exampleConfig (exampleManager (2 ^ 62)) ∧
      (exampleManager (2 ^ 62)).block_count = 2 ^ 62 ∧
      (exampleManager (2 ^ 62)).num_inodes = 0 ∧
      ((exampleManager (2 ^ 62)).reserve exampleConfig).1 = .ok 0 ∧
      ¬ (0 < (exampleManager (2 ^ 62)).num_inodes) := by
  decide

/-- C3, amended: for every disk and every loaded layout whose slot count
`num_inodes_per_block * block_count` fits in 64 bits, when `reserve()` succeeds
with identifier `n`, then `n < num_inodes`, the record of slot `n` (located as
`get` locates it) is tagged `FREE`, and no slot with a smaller identifier is
tagged `FREE`. -/
theorem reserve_first_fit (cfg : Config) (m : LinearINodeManager) (n : Nat)
    (hL : Loaded cfg m) (hW : NoWrap cfg m) (h : (m.reserve cfg).1 = .ok n) :
    n < m.num_inodes ∧ (slot cfg m n).type = cfg.FREE ∧
      ∀ k, k < n → (slot cfg m k).type ≠ cfg.FREE := by
  obtain ⟨b, j, hb, hj, hn, hfree, hbefore, hblocks⟩ := reserve_ok_found cfg m n hW h
  obtain ⟨_, _, hnum⟩ := hL
  unfold NoWrap at hW
  rw [u64_of_lt hW] at hnum
  have hP : 0 < cfg.num_inodes_per_block := by omega
  subst hn
  refine ⟨?_, ?_, fun k hk => ?_⟩
  · rw [hnum]; exact mul_add_lt_mul hb hj
  · rw [slot_mul_add cfg m b j hj]; exact hfree
  · have hkm : k % cfg.num_inodes_per_block < cfg.num_inodes_per_block := Nat.mod_lt _ hP
    have hk1 := div_mod_decomp cfg.num_inodes_per_block k
    rw [hk1, slot_mul_add cfg m _ _ hkm]
    have hle : k / cfg.num_inodes_per_block ≤ b := by
      have : k / cfg.num_inodes_per_block ≤
          (b * cfg.num_inodes_per_block + j) / cfg.num_inodes_per_block :=
        Nat.div_le_div_right (le_of_lt hk)
      rwa [Nat.add_comm, Nat.add_mul_div_right _ _ hP, Nat.div_eq_of_lt hj, Nat.zero_add] at this
    rcases Nat.lt_or_eq_of_le hle with hlt1 | heq
    · exact hblocks _ hlt1 _ hkm
    · rw [heq]
      apply hbefore
      rw [heq] at hk1
      omega

theorem reserve_first_fit_witness :
    (Loaded exampleConfig exampleInUse ∧ NoWrap exampleConfig exampleInUse ∧
        (exampleInUse.reserve exampleConfig).1 = .ok 3) ∧
      (3 < exampleInUse.num_inodes ∧
        (slot exampleConfig exampleInUse 3).type = exampleConfig.FREE ∧
        ∀ k, k < 3 → (slot exampleConfig exampleInUse k).type ≠ exampleConfig.FREE) :=
  ⟨⟨by decide, by decide, by decide⟩,
    reserve_first_fit exampleConfig exampleInUse 3 (by decide) (by decide) (by decide)⟩

/-- C4, as stated, fails when the slot count wraps: the manager constructed on
the zero-filled example disk whose superblock announces `2 ^ 62` blocks of four
records has loaded `num_inodes = 4 * 2 ^ 62 mod 2 ^ 64 = 0`, so no slot in
`0 .. num_inodes - 1` is tagged `FREE`, and yet `reserve()` does not fail: it
returns identifier 0. -/
theorem reserve_out_of_inodes_counterexample :
    Loaded exampleConfig (exampleManager (2 ^ 62)) ∧
      (exampleManager (2 ^ 62)).block_count = 2 ^ 62 ∧
      (exampleManager (2 ^ 62)).num_inodes = 0 ∧
      (∀ n, n < (exampleManager (2 ^ 62)).num_inodes →
        (slot exampleConfig (exampleManager (2 ^ 62)) n).type ≠ exampleConfig.FREE) ∧
      ((exampleManager (2 ^ 62)).reserve exampleConfig).1 = .ok 0 ∧
      ((exampleManager (2 ^ 62)).reserve exampleConfig).1 ≠ .error .OutOfINodes := by
  decide

/-- C4, amended: for every disk and every loaded layout whose slot count
`num_inodes_per_block * block_count` fits in 64 bits, `reserve()` fails with
`OutOfINodes` if and only if no record in the inode region, slots
`0 .. num_inodes - 1`, is tagged `FREE`.  For every cached layout, wrapped or
not, it fails with `OutOfINodes` if and only if no record of the `block_count`
blocks of the region is tagged `FREE`, and it fails with no other error; in
particular `reserve()` fails when the region has zero blocks. -/
theorem reserve_out_of_inodes (cfg : Config) (m : LinearINodeManager) :
    ((m.reserve cfg).1 = .error .OutOfINodes ↔
        ∀ b, b < m.block_count → ∀ k, k < cfg.num_inodes_per_block →
          (m.disk.get (u64 (m.start_block + b)) k).type ≠ cfg.FREE) ∧
      (∀ e, (m.reserve cfg).1 = .error e → e = .OutOfINodes) ∧
      (Loaded cfg m → NoWrap cfg m →
        ((m.reserve cfg).1 = .error .OutOfINodes ↔
          ∀ n, n < m.num_inodes → (slot cfg m n).type ≠ cfg.FREE)) ∧
      (m.block_count = 0 → (m.reserve cfg).1 = .error .OutOfINodes) := by
  refine ⟨reserve_error_iff_blocks cfg m,
    fun e he => ((loop_eq_error cfg m m.block_count 0 e).1 he).1, fun hL hW => ?_, fun h0 => ?_⟩
  · rw [reserve_error_iff_blocks, blocks_iff_slots cfg m hL hW]
  · rw [reserve_error_iff_blocks, h0]
    intro b hb
    omega

theorem reserve_out_of_inodes_witness :
    (Loaded exampleConfig exampleFull ∧ NoWrap exampleConfig exampleFull ∧
        (exampleManager 0).block_count = 0) ∧
      (((exampleFull.reserve exampleConfig).1 = .error .OutOfINodes ↔
          ∀ n, n < exampleFull.num_inodes →
            (slot exampleConfig exampleFull n).type ≠ exampleConfig.FREE) ∧
        ((exampleManager 0).reserve exampleConfig).1 = .error .OutOfINodes) :=
  ⟨⟨by decide, by decide, by decide⟩,
    (reserve_out_of_inodes exampleConfig exampleFull).2.2.1 (by decide) (by decide),
    (reserve_out_of_inodes exampleConfig (exampleManager 0)).2.2.2 (by decide)⟩

/-- C5: `reserve` does not mark the slot it returns.  Whether it succeeds or
fails, the manager after the call (disk contents and cached layout) is the
manager before it, so a second `reserve` right after the first has the same
outcome: the same identifier, or the same failure. -/
theorem reserve_changes_nothing (cfg : Config) (m : LinearINodeManager) :
    (m.reserve cfg).2 = m ∧ ((m.reserve cfg).2.reserve cfg).1 = (m.reserve cfg).1 :=
  ⟨rfl, rfl⟩

/-- C6: for every disk whose layout descriptor gives an inode region of at least
one block, with at least three records per block and `FREE` the zero-valued tag
(and `RESERVED` another tag): `mkfs()` completes exactly when its assertion that
the record size divides the block size holds, and whenever it completes, the
`reserve()` that follows succeeds and returns 2. -/
theorem mkfs_then_reserve (cfg : Config) (uninit : Block) (m : LinearINodeManager)
    (hcount : 1 ≤ u64 (cfg.superblock (m.disk.get 0)).inode_block_count)
    (hper : 3 ≤ cfg.num_inodes_per_block) (hfree : cfg.FREE = 0)
    (hres : cfg.RESERVED ≠ cfg.FREE) :
    ((m.mkfs cfg uninit).1 = .ok () ↔ cfg.BLOCK_SIZE % cfg.INODE_SIZE = 0) ∧
      ((m.mkfs cfg uninit).1 = .ok () → ((m.mkfs cfg uninit).2.reserve cfg).1 = .ok 2) := by
  refine ⟨mkfs_ok_iff cfg uninit m, fun hok => ?_⟩
  have hdiv := (mkfs_ok_iff cfg uninit m).1 hok
  have hblock := mkfs_first_block cfg uninit m hdiv
  have hstart : (m.mkfs cfg uninit).2.start_block < 2 ^ 64 := (mkfs_loaded cfg uninit m hdiv).1
  have hcnt := (mkfs_layout cfg uninit m hdiv).2.1
  refine (loop_eq_ok cfg _ _ 0 2).2 ⟨0, 2, le_refl _, by omega, by omega, ?_, ?_, ?_, ?_⟩
  · rw [Nat.add_zero, u64_of_lt hstart, hblock, first_block_apply]
    simp [hfree]
  · intro k hk
    rw [Nat.add_zero, u64_of_lt hstart, hblock, first_block_apply]
    have : k = 1 ∨ k = 0 := by omega
    simp [this, hres]
  · intro c _ hc
    omega
  · simp [u64]

theorem mkfs_then_reserve_witness :
    (1 ≤ u64 (exampleConfig.superblock ((exampleManager 3).disk.get 0)).inode_block_count ∧
        3 ≤ exampleConfig.num_inodes_per_block ∧ exampleConfig.FREE = 0 ∧
        exampleConfig.RESERVED ≠ exampleConfig.FREE ∧
        ((exampleManager 3).mkfs exampleConfig Block.zero).1 = .ok ()) ∧
      ((((exampleManager 3).mkfs exampleConfig Block.zero).1 = .ok () ↔
          exampleConfig.BLOCK_SIZE % exampleConfig.INODE_SIZE = 0) ∧
        (((exampleManager 3).mkfs exampleConfig Block.zero).2.reserve exampleConfig).1 =
            .ok 2) :=
  ⟨⟨by decide, by decide, by decide, by decide, by decide⟩,
    (mkfs_then_reserve exampleConfig Block.zero (exampleManager 3)
      (by decide) (by decide) (by decide) (by decide)).1,
    (mkfs_then_reserve exampleConfig Block.zero (exampleManager 3)
      (by decide) (by decide) (by decide) (by decide)).2 (by decide)⟩

/-- C7, as stated, fails for slot 1: on the freshly formatted example region the
single call `release(1)` is accepted, after it slot 1 is tagged `FREE` and no
longer `RESERVED`, and `reserve()` returns 1. -/
theorem reserved_slots_kept_counterexample :
    exampleConfig.root = 1 ∧
      ((exampleManager 3).mkfs exampleConfig Block.zero).1 = .ok () ∧
      (slot exampleConfig (exampleFormatted 3) 1).type = exampleConfig.RESERVED ∧
      (slot exampleConfig (runCalls exampleConfig (exampleFormatted 3) [.release 1]) 1).type ≠
        exampleConfig.RESERVED ∧
      ((runCalls exampleConfig (exampleFormatted 3) [.release 1]).reserve exampleConfig).1 =
        .ok 1 := by
  decide

/-- C7, amended: with `root = 1`, at least two records per block and `RESERVED`
a tag other than `FREE`, in every state reached from the state right after a
completed `mkfs()` by any finite sequence of `reserve`, `get`, `set` and
`release` calls (failing calls included), slot 0 is still tagged `RESERVED`,
and `reserve()` does not return 0 when the slot count fits in 64 bits.  Slot 1
is still tagged `RESERVED`, and not returned by `reserve()`, as long as no call
of the sequence is a `set` or a `release` of identifier 1. -/
theorem reserved_slots_kept (cfg : Config) (uninit : Block) (m : LinearINodeManager)
    (calls : List Call) (hok : (m.mkfs cfg uninit).1 = .ok ())
    (hper : 2 ≤ cfg.num_inodes_per_block) (hroot : cfg.root = 1)
    (hres : cfg.RESERVED ≠ cfg.FREE) :
    (slot cfg (runCalls cfg (m.mkfs cfg uninit).2 calls) 0).type = cfg.RESERVED ∧
      (NoWrap cfg (m.mkfs cfg uninit).2 →
        ((runCalls cfg (m.mkfs cfg uninit).2 calls).reserve cfg).1 ≠ .ok 0) ∧
      ((∀ c ∈ calls, ¬ c.writesTo 1) →
        (slot cfg (runCalls cfg (m.mkfs cfg uninit).2 calls) 1).type = cfg.RESERVED ∧
          (NoWrap cfg (m.mkfs cfg uninit).2 →
            ((runCalls cfg (m.mkfs cfg uninit).2 calls).reserve cfg).1 ≠ .ok 1)) := by
  have hdiv := (mkfs_ok_iff cfg uninit m).1 hok
  have hL := mkfs_loaded cfg uninit m hdiv
  have hnum : (m.mkfs cfg uninit).2.num_inodes ≤ 2 ^ 64 := by
    rw [hL.2.2]; exact le_of_lt (u64_lt _)
  obtain ⟨_, l2, _⟩ := runCalls_layout cfg calls (m.mkfs cfg uninit).2
  have hW1 : NoWrap cfg (m.mkfs cfg uninit).2 →
      NoWrap cfg (runCalls cfg (m.mkfs cfg uninit).2 calls) := by
    intro hW; unfold NoWrap at *; rw [l2]; exact hW
  have h0 : (slot cfg (runCalls cfg (m.mkfs cfg uninit).2 calls) 0).type = cfg.RESERVED := by
    rw [runCalls_slot cfg 0 (by norm_num) calls _ hnum (fun c _ => Or.inr (by omega))]
    exact mkfs_slot_zero cfg uninit m hdiv
  refine ⟨h0, fun hW hr => ?_, fun hcalls => ?_⟩
  · have := reserve_ok_slot_free cfg _ 0 (hW1 hW) hr
    rw [h0] at this
    exact hres this
  · have h1 : (slot cfg (runCalls cfg (m.mkfs cfg uninit).2 calls) 1).type = cfg.RESERVED := by
      rw [runCalls_slot cfg 1 (by norm_num) calls _ hnum (fun c hc => Or.inl (hcalls c hc))]
      exact mkfs_slot_one cfg uninit m hdiv hper
    refine ⟨h1, fun hW hr => ?_⟩
    have := reserve_ok_slot_free cfg _ 1 (hW1 hW) hr
    rw [h1] at this
    exact hres this

theorem reserved_slots_kept_witness :
    (((exampleManager 3).mkfs exampleConfig Block.zero).1 = .ok () ∧
        2 ≤ exampleConfig.num_inodes_per_block ∧ exampleConfig.root = 1 ∧
        exampleConfig.RESERVED ≠ exampleConfig.FREE ∧
        NoWrap exampleConfig ((exampleManager 3).mkfs exampleConfig Block.zero).2 ∧
        ∀ c ∈ [Call.reserve, .set 2 ⟨7, 99⟩, .release 0, .get 1 ⟨0, 0⟩, .set 0 ⟨0, 0⟩,
          .release 2], ¬ c.writesTo 1) ∧
      (slot exampleConfig (runCalls exampleConfig
          ((exampleManager 3).mkfs exampleConfig Block.zero).2
          [.reserve, .set 2 ⟨7, 99⟩, .release 0, .get 1 ⟨0, 0⟩, .set 0 ⟨0, 0⟩, .release 2])
        0).type = exampleConfig.RESERVED ∧
      ((runCalls exampleConfig ((exampleManager 3).mkfs exampleConfig Block.zero).2
          [.reserve, .set 2 ⟨7, 99⟩, .release 0, .get 1 ⟨0, 0⟩, .set 0 ⟨0, 0⟩,
            .release 2]).reserve exampleConfig).1 ≠ .ok 0 ∧
      (slot exampleConfig (runCalls exampleConfig
          ((exampleManager 3).mkfs exampleConfig Block.zero).2
          [.reserve, .set 2 ⟨7, 99⟩, .release 0, .get 1 ⟨0, 0⟩, .set 0 ⟨0, 0⟩, .release 2])
        1).type = exampleConfig.RESERVED :=
  ⟨⟨by decide, by decide, by decide, by decide, by decide, by decide⟩,
    (reserved_slots_kept exampleConfig Block.zero (exampleManager 3)
      [.reserve, .set 2 ⟨7, 99⟩, .release 0, .get 1 ⟨0, 0⟩, .set 0 ⟨0, 0⟩, .release 2]
      (by decide) (by decide) (by decide) (by decide)).1,
    (reserved_slots_kept exampleConfig Block.zero (exampleManager 3)
      [.reserve, .set 2 ⟨7, 99⟩, .release 0, .get 1 ⟨0, 0⟩, .set 0 ⟨0, 0⟩, .release 2]
      (by decide) (by decide) (by decide) (by decide)).2.1 (by decide),
    ((reserved_slots_kept exampleConfig Block.zero (exampleManager 3)
      [.reserve, .set 2 ⟨7, 99⟩, .release 0, .get 1 ⟨0, 0⟩, .set 0 ⟨0, 0⟩, .release 2]
      (by decide) (by decide) (by decide) (by decide)).2.2 (by decide)).1⟩

/-- C8, as stated, fails: the example region of three blocks of four records has
`num_inodes - 2 = 10`, but `mkfs` tags all of block 1 `RESERVED` (the loop bound
`3*32*8/330` is 2), so only six slots are free; of ten rounds of `reserve()`
followed by `set`, the first six succeed and the seventh already fails with
`OutOfINodes`. -/
theorem mkfs_then_exhaust_counterexample :
    ((exampleManager 3).mkfs exampleConfig Block.zero).1 = .ok () ∧
      (exampleFormatted 3).num_inodes - 2 = 10 ∧
      (allocateAll exampleConfig (exampleFormatted 3) (List.replicate 10 ⟨7, 99⟩)).1 =
        [.ok 2, .ok 3, .ok 8, .ok 9, .ok 10, .ok 11, .error .OutOfINodes,
          .error .OutOfINodes, .error .OutOfINodes, .error .OutOfINodes] ∧
      ((allocateAll exampleConfig (exampleFormatted 3)
        (List.replicate 6 ⟨7, 99⟩)).2.reserve exampleConfig).1 = .error .OutOfINodes := by
  decide

/-- C8, amended: for every region right after a completed `mkfs()`, with
`root = 1`, at least two records per block, `FREE` the zero-valued tag,
`RESERVED` another tag and a slot count that fits in 64 bits, let
`F = num_inodes - 2 - (max(K, 1) - 1) * num_inodes_per_block` with
`K = block_count*32*8/330`, the number of slots `mkfs` leaves `FREE`.  Calling
`reserve()` `F` times with no `release()` in between, the caller writing each
returned slot as in use through `set`, succeeds every time, and the next
`reserve()` fails with `OutOfINodes`.  `F` is `num_inodes - 2` when `K <= 1`. -/
theorem mkfs_then_exhaust (cfg : Config) (uninit : Block) (m : LinearINodeManager)
    (inodes : List INode) (hok : (m.mkfs cfg uninit).1 = .ok ())
    (hper : 2 ≤ cfg.num_inodes_per_block) (hroot : cfg.root = 1) (hfree : cfg.FREE = 0)
    (hres : cfg.RESERVED ≠ cfg.FREE) (hW : NoWrap cfg (m.mkfs cfg uninit).2)
    (hlen : inodes.length = freeAfterMkfs cfg (m.mkfs cfg uninit).2)
    (hused : ∀ r ∈ inodes, r.type ≠ cfg.FREE) :
    (allocateAll cfg (m.mkfs cfg uninit).2 inodes).1.length =
        freeAfterMkfs cfg (m.mkfs cfg uninit).2 ∧
      (∀ o ∈ (allocateAll cfg (m.mkfs cfg uninit).2 inodes).1, ∃ id, o = Except.ok id) ∧
      ((allocateAll cfg (m.mkfs cfg uninit).2 inodes).2.reserve cfg).1 = .error .OutOfINodes ∧
      (mkfsBound (m.mkfs cfg uninit).2 ≤ 1 →
        freeAfterMkfs cfg (m.mkfs cfg uninit).2 = (m.mkfs cfg uninit).2.num_inodes - 2) := by
  have hdiv := (mkfs_ok_iff cfg uninit m).1 hok
  have hL := mkfs_loaded cfg uninit m hdiv
  have hcard := card_freeSlots_mkfs cfg uninit m hdiv hper hfree hres hW
  have hfloor : ∀ n ∈ freeSlots cfg (m.mkfs cfg uninit).2, cfg.root ≤ n := by
    intro n hn
    obtain ⟨h1, h2⟩ := (mem_freeSlots cfg _ n).1 hn
    have hP : cfg.num_inodes_per_block ≤
        max (mkfsBound (m.mkfs cfg uninit).2) 1 * cfg.num_inodes_per_block :=
      Nat.le_mul_of_pos_left _ (by omega)
    rcases (mkfs_slot_free_iff cfg uninit m hdiv hper hfree hres hW n h1).1 h2 with h | h
    · omega
    · omega
  obtain ⟨hall, hnext⟩ := allocateAll_exhausts cfg inodes (m.mkfs cfg uninit).2 hL hW hfloor
    (by rw [hcard, hlen]) hused
  refine ⟨by rw [allocateAll_length, hlen], hall, hnext, fun hK => ?_⟩
  unfold freeAfterMkfs
  rw [max_eq_right hK]
  simp

theorem mkfs_then_exhaust_witness :
    (((exampleManager 3).mkfs exampleConfig Block.zero).1 = .ok () ∧
        2 ≤ exampleConfig.num_inodes_per_block ∧ exampleConfig.root = 1 ∧
        exampleConfig.FREE = 0 ∧ exampleConfig.RESERVED ≠ exampleConfig.FREE ∧
        NoWrap exampleConfig ((exampleManager 3).mkfs exampleConfig Block.zero).2 ∧
        (List.replicate 6 (⟨7, 99⟩ : INode)).length =
          freeAfterMkfs exampleConfig ((exampleManager 3).mkfs exampleConfig Block.zero).2 ∧
        ∀ r ∈ List.replicate 6 (⟨7, 99⟩ : INode), r.type ≠ exampleConfig.FREE) ∧
      ((allocateAll exampleConfig ((exampleManager 3).mkfs exampleConfig Block.zero).2
          (List.replicate 6 ⟨7, 99⟩)).1.length =
          freeAfterMkfs exampleConfig ((exampleManager 3).mkfs exampleConfig Block.zero).2 ∧
        (∀ o ∈ (allocateAll exampleConfig ((exampleManager 3).mkfs exampleConfig Block.zero).2
          (List.replicate 6 ⟨7, 99⟩)).1, ∃ id, o = Except.ok id) ∧
        ((allocateAll exampleConfig ((exampleManager 3).mkfs exampleConfig Block.zero).2
          (List.replicate 6 ⟨7, 99⟩)).2.reserve exampleConfig).1 = .error .OutOfINodes ∧
        (mkfsBound ((exampleManager 3).mkfs exampleConfig Block.zero).2 ≤ 1 →
          freeAfterMkfs exampleConfig ((exampleManager 3).mkfs exampleConfig Block.zero).2 =
            ((exampleManager 3).mkfs exampleConfig Block.zero).2.num_inodes - 2)) :=
  ⟨⟨by decide, by decide, by decide, by decide, by decide, by decide, by decide, by decide⟩,
    mkfs_then_exhaust exampleConfig Block.zero (exampleManager 3) (List.replicate 6 ⟨7, 99⟩)
      (by decide) (by decide) (by decide) (by decide) (by decide) (by decide) (by decide)
      (by decide)⟩

/-- C9: for every disk, every loaded layout and every identifier `i` accepted by
the bounds check such that no slot with an identifier smaller than `i` is tagged
`FREE`: `release(i)` succeeds and the `reserve()` that directly follows returns
`i`. -/
theorem release_then_reserve (cfg : Config) (m : LinearINodeManager) (i : Nat)
    (hL : Loaded cfg m) (hlo : cfg.root ≤ i) (hi : i < m.num_inodes)
    (hsmaller : ∀ k, k < i → (slot cfg m k).type ≠ cfg.FREE) :
    (m.release cfg i).1 = .ok () ∧ ((m.release cfg i).2.reserve cfg).1 = .ok i := by
  obtain ⟨hstart, hcount, _⟩ := release_layout cfg m i
  have hself := release_get_self cfg m i hlo hi
  refine ⟨by rw [release_accepted cfg m i hlo hi], ?_⟩
  obtain ⟨_, _, hnum⟩ := hL
  have hi64 : i < 2 ^ 64 := by rw [hnum] at hi; exact lt_trans hi (u64_lt _)
  have hprod : i < cfg.num_inodes_per_block * m.block_count := by
    rw [hnum] at hi; exact lt_of_lt_of_le hi (Nat.mod_le _ _)
  have hP : 0 < cfg.num_inodes_per_block := per_block_pos_of_lt hnum hi
  have hdm := div_mod_decomp cfg.num_inodes_per_block i
  have hmod : i % cfg.num_inodes_per_block < cfg.num_inodes_per_block := Nat.mod_lt _ hP
  have hdiv_le : i / cfg.num_inodes_per_block ≤ i := Nat.div_le_self _ _
  refine (loop_eq_ok cfg _ _ 0 i).2
    ⟨i / cfg.num_inodes_per_block, i % cfg.num_inodes_per_block, Nat.zero_le _, ?_, hmod,
      ?_, ?_, ?_, ?_⟩
  · rw [hcount, Nat.zero_add]
    exact Nat.div_lt_of_lt_mul hprod
  · rw [hstart, hself]
  · intro k hk
    rw [hstart, release_get_other cfg m i _ _ (fun h => by omega),
      ← slot_mul_add cfg m _ k (by omega)]
    apply hsmaller
    omega
  · intro c _ hc k hk
    have hne : ¬ u64 (m.start_block + c) = u64 (m.start_block + i / cfg.num_inodes_per_block) :=
      fun h => by
        have := u64_add_inj (by omega) (by omega) h
        omega
    rw [hstart, release_get_other cfg m i _ _ (fun h => hne h.1),
      ← slot_mul_add cfg m c k hk]
    apply hsmaller
    have h1 : (c + 1) * cfg.num_inodes_per_block ≤
        (i / cfg.num_inodes_per_block) * cfg.num_inodes_per_block :=
      Nat.mul_le_mul_right _ hc
    have h2 : (c + 1) * cfg.num_inodes_per_block =
        c * cfg.num_inodes_per_block + cfg.num_inodes_per_block := by ring
    omega
  · rw [u64_id_of_lt (by omega)]
    exact hdm

theorem release_then_reserve_witness :
    (Loaded exampleConfig exampleInUse ∧ exampleConfig.root ≤ 2 ∧
        2 < exampleInUse.num_inodes ∧
        ∀ k, k < 2 → (slot exampleConfig exampleInUse k).type ≠ exampleConfig.FREE) ∧
      ((exampleInUse.release exampleConfig 2).1 = .ok () ∧
        ((exampleInUse.release exampleConfig 2).2.reserve exampleConfig).1 = .ok 2) :=
  ⟨⟨by decide, by decide, by decide, by decide⟩,
    release_then_reserve exampleConfig exampleInUse 2
      (by decide) (by decide) (by decide) (by decide)⟩

/-- C10: for every disk, cached layout and identifier `i` accepted by the bounds
check, `release(i)` succeeds, keeps the cached layout, sets the tag of slot `i`
to `FREE` and keeps the other bytes of that record; every other record of the
same block and every record of every other block of the disk is unchanged. -/
theorem release_frame (cfg : Config) (m : LinearINodeManager) (i : Nat)
    (hlo : cfg.root ≤ i) (hi : i < m.num_inodes) :
    (m.release cfg i).1 = .ok () ∧
      (m.release cfg i).2.start_block = m.start_block ∧
      (m.release cfg i).2.block_count = m.block_count ∧
      (m.release cfg i).2.num_inodes = m.num_inodes ∧
      (slot cfg (m.release cfg i).2 i).type = cfg.FREE ∧
      (slot cfg (m.release cfg i).2 i).rest = (slot cfg m i).rest ∧
      ∀ k j : Nat,
        ¬ (k = u64 (m.start_block + i / cfg.num_inodes_per_block) ∧
            j = i % cfg.num_inodes_per_block) →
          (m.release cfg i).2.disk.get k j = m.disk.get k j := by
  obtain ⟨hstart, hcount, hnum⟩ := release_layout cfg m i
  have hself := release_get_self cfg m i hlo hi
  refine ⟨by rw [release_accepted cfg m i hlo hi], hstart, hcount, hnum, ?_, ?_,
    fun k j hkj => release_get_other cfg m i k j hkj⟩
  · unfold slot
    rw [hstart, hself]
  · unfold slot
    rw [hstart, hself]

theorem release_frame_witness :
    (exampleConfig.root ≤ 2 ∧ 2 < exampleInUse.num_inodes) ∧
      ((exampleInUse.release exampleConfig 2).1 = .ok () ∧
      (exampleInUse.release exampleConfig 2).2.start_block = exampleInUse.start_block ∧
      (exampleInUse.release exampleConfig 2).2.block_count = exampleInUse.block_count ∧
      (exampleInUse.release exampleConfig 2).2.num_inodes = exampleInUse.num_inodes ∧
      (slot exampleConfig (exampleInUse.release exampleConfig 2).2 2).type =
        exampleConfig.FREE ∧
      (slot exampleConfig (exampleInUse.release exampleConfig 2).2 2).rest =
        (slot exampleConfig exampleInUse 2).rest ∧
      ∀ k j : Nat,
        ¬ (k = u64 (exampleInUse.start_block + 2 / exampleConfig.num_inodes_per_block) ∧
            j = 2 % exampleConfig.num_inodes_per_block) →
          (exampleInUse.release exampleConfig 2).2.disk.get k j = exampleInUse.disk.get k j) :=
  ⟨⟨by decide, by decide⟩,
    release_frame exampleConfig exampleInUse 2 (by decide) (by decide)⟩

/-! The operations with their storage calls. -/

theorem getTraced_fst (cfg : Config) (m : LinearINodeManager) (i : Nat) (user_inode : INode) :
    (m.getTraced cfg i user_inode).1 = m.get cfg i user_inode := by
  by_cases hc : i ≥ m.num_inodes ∨ i < cfg.root <;>
    simp [LinearINodeManager.getTraced, LinearINodeManager.get, hc]

theorem setTraced_fst (cfg : Config) (m : LinearINodeManager) (i : Nat) (user_inode : INode) :
    (m.setTraced cfg i user_inode).1 = m.set cfg i user_inode := by
  by_cases hc : i ≥ m.num_inodes ∨ i < cfg.root <;>
    simp [LinearINodeManager.setTraced, LinearINodeManager.set, hc]

theorem releaseTraced_fst (cfg : Config) (m : LinearINodeManager) (i : Nat) :
    (m.releaseTraced cfg i).1 = m.release cfg i := by
  by_cases hc : i ≥ m.num_inodes ∨ i < cfg.root <;>
    simp [LinearINodeManager.releaseTraced, LinearINodeManager.release, hc]

/-- C11: for every disk, cached layout and identifier `i >= num_inodes`, each of
`get(i)`, `set(i, r)` and `release(i)` fails with the out-of-range error and
issues no call to the storage device, neither a read nor a write; the manager
(disk contents and layout) is unchanged and, for `get`, the record of the
caller is left as it was. -/
theorem out_of_range_before_io (cfg : Config) (m : LinearINodeManager) (i : Nat)
    (r user_inode : INode) (hi : m.num_inodes ≤ i) :
    m.getTraced cfg i user_inode = ((.error .out_of_range, user_inode, m), []) ∧
      m.setTraced cfg i r = ((.error .out_of_range, m), []) ∧
      m.releaseTraced cfg i = ((.error .out_of_range, m), []) ∧
      m.get cfg i user_inode = (.error .out_of_range, user_inode, m) ∧
      m.set cfg i r = (.error .out_of_range, m) ∧
      m.release cfg i = (.error .out_of_range, m) := by
  have hc : i ≥ m.num_inodes ∨ i < cfg.root := Or.inl hi
  have h1 : m.getTraced cfg i user_inode = ((.error .out_of_range, user_inode, m), []) := by
    simp [LinearINodeManager.getTraced, hc]
  have h2 : m.setTraced cfg i r = ((.error .out_of_range, m), []) := by
    simp [LinearINodeManager.setTraced, hc]
  have h3 : m.releaseTraced cfg i = ((.error .out_of_range, m), []) := by
    simp [LinearINodeManager.releaseTraced, hc]
  refine ⟨h1, h2, h3, ?_, ?_, ?_⟩
  · rw [← getTraced_fst, h1]
  · rw [← setTraced_fst, h2]
  · rw [← releaseTraced_fst, h3]

theorem out_of_range_before_io_witness :
    exampleInUse.num_inodes ≤ 12 ∧
      (exampleInUse.getTraced exampleConfig 12 ⟨5, 6⟩ =
          ((.error .out_of_range, ⟨5, 6⟩, exampleInUse), []) ∧
        exampleInUse.setTraced exampleConfig 12 ⟨7, 98⟩ =
          ((.error .out_of_range, exampleInUse), []) ∧
        exampleInUse.releaseTraced exampleConfig 12 =
          ((.error .out_of_range, exampleInUse), []) ∧
        exampleInUse.get exampleConfig 12 ⟨5, 6⟩ =
          (.error .out_of_range, ⟨5, 6⟩, exampleInUse) ∧
        exampleInUse.set exampleConfig 12 ⟨7, 98⟩ = (.error .out_of_range, exampleInUse) ∧
        exampleInUse.release exampleConfig 12 = (.error .out_of_range, exampleInUse)) :=
  ⟨by decide, out_of_range_before_io exampleConfig exampleInUse 12 ⟨7, 98⟩ ⟨5, 6⟩ (by decide)⟩

/-- C12: for every disk and every block count of the layout descriptor (so for
every value of the loop bound `block_count*32*8/330`, 0 and 1 included), with at
least two records per block: `mkfs()` completes exactly when its assertion
holds, and whenever it completes, slot 0 and slot 1 are both tagged
`RESERVED`. -/
theorem mkfs_reserves_null_and_root (cfg : Config) (uninit : Block) (m : LinearINodeManager)
    (hper : 2 ≤ cfg.num_inodes_per_block) :
    ((m.mkfs cfg uninit).1 = .ok () ↔ cfg.BLOCK_SIZE % cfg.INODE_SIZE = 0) ∧
      ((m.mkfs cfg uninit).1 = .ok () →
        (slot cfg (m.mkfs cfg uninit).2 0).type = cfg.RESERVED ∧
          (slot cfg (m.mkfs cfg uninit).2 1).type = cfg.RESERVED) := by
  refine ⟨mkfs_ok_iff cfg uninit m, fun hok => ?_⟩
  have hdiv := (mkfs_ok_iff cfg uninit m).1 hok
  exact ⟨mkfs_slot_zero cfg uninit m hdiv, mkfs_slot_one cfg uninit m hdiv hper⟩

theorem mkfs_reserves_null_and_root_witness :
    (2 ≤ exampleConfig.num_inodes_per_block ∧
        mkfsBound ((exampleManager 1).mkfs exampleConfig Block.zero).2 = 0 ∧
        mkfsBound ((exampleManager 2).mkfs exampleConfig Block.zero).2 = 1 ∧
        ((exampleManager 1).mkfs exampleConfig Block.zero).1 = .ok () ∧
        ((exampleManager 2).mkfs exampleConfig Block.zero).1 = .ok ()) ∧
      ((slot exampleConfig ((exampleManager 1).mkfs exampleConfig Block.zero).2 0).type =
          exampleConfig.RESERVED ∧
        (slot exampleConfig ((exampleManager 1).mkfs exampleConfig Block.zero).2 1).type =
          exampleConfig.RESERVED) ∧
      ((slot exampleConfig ((exampleManager 2).mkfs exampleConfig Block.zero).2 0).type =
          exampleConfig.RESERVED ∧
        (slot exampleConfig ((exampleManager 2).mkfs exampleConfig Block.zero).2 1).type =
          exampleConfig.RESERVED) :=
  ⟨⟨by decide, by decide, by decide, by decide, by decide⟩,
    (mkfs_reserves_null_and_root exampleConfig Block.zero (exampleManager 1) (by decide)).2
      (by decide),
    (mkfs_reserves_null_and_root exampleConfig Block.zero (exampleManager 2) (by decide)).2
      (by decide)⟩

/-! The exact content of the region after `mkfs`. -/

theorem tagBlock_apply (cfg : Config) :
    ∀ (remaining j0 : Nat) (block : Block) (j : Nat),
      LinearINodeManager.mkfs.tagBlock cfg remaining j0 block j =
        if j0 ≤ j ∧ j < j0 + remaining then { block j with type := cfg.RESERVED }
        else block j := by
  intro remaining
  induction remaining with
  | zero =>
    intro j0 block j
    have : ¬ (j0 ≤ j ∧ j < j0 + 0) := by omega
    rw [if_neg this]
    rfl
  | succ n ih =>
    intro j0 block j
    simp only [LinearINodeManager.mkfs.tagBlock]
    rw [ih, Block.setType, Block.setINode_apply]
    by_cases hj : j = j0
    · subst hj
      have h1 : ¬ (j + 1 ≤ j ∧ j < j + 1 + n) := by omega
      have h2 : j ≤ j ∧ j < j + (n + 1) := by omega
      rw [if_neg h1, if_pos rfl, if_pos h2]
    · by_cases hin : j0 + 1 ≤ j ∧ j < j0 + 1 + n
      · have h2 : j0 ≤ j ∧ j < j0 + (n + 1) := by omega
        rw [if_pos hin, if_neg hj, if_pos h2]
      · have h2 : ¬ (j0 ≤ j ∧ j < j0 + (n + 1)) := by omega
        rw [if_neg hin, if_neg hj, if_neg h2]

theorem tagBlock_idem (cfg : Config) (remaining j0 : Nat) (block : Block) :
    LinearINodeManager.mkfs.tagBlock cfg remaining j0
        (LinearINodeManager.mkfs.tagBlock cfg remaining j0 block) =
      LinearINodeManager.mkfs.tagBlock cfg remaining j0 block := by
  funext j
  rw [tagBlock_apply cfg remaining j0 _ j, tagBlock_apply cfg remaining j0 block j]
  by_cases h : j0 ≤ j ∧ j < j0 + remaining
  · simp [h]
  · simp [h]

/-- Every block written by the first loop of `mkfs` holds the image of the local
block after its first tagging. -/
theorem reservedLoop_hit_eq (cfg : Config) (start_block : Nat) :
    ∀ (remaining i : Nat) (block : Block) (disk : Storage) (x : Nat),
      (∃ c, i ≤ c ∧ c < i + remaining ∧ u64 (start_block + c) = x) →
      (LinearINodeManager.mkfs.reservedLoop cfg start_block remaining i block disk).2.get x =
        LinearINodeManager.mkfs.tagBlock cfg cfg.num_inodes_per_block 0 block := by
  intro remaining
  induction remaining with
  | zero => rintro i block disk x ⟨c, h1, h2, _⟩; omega
  | succ n ih =>
    rintro i block disk x ⟨c, h1, h2, h3⟩
    simp only [LinearINodeManager.mkfs.reservedLoop]
    by_cases hlater : ∃ d, i + 1 ≤ d ∧ d < i + 1 + n ∧ u64 (start_block + d) = x
    · rw [ih (i + 1) _ _ x hlater, tagBlock_idem]
    · have hmiss : ∀ d, i + 1 ≤ d → d < i + 1 + n → u64 (start_block + d) ≠ x :=
        fun d hd1 hd2 hd3 => hlater ⟨d, hd1, hd2, hd3⟩
      have hci : c = i := by
        by_contra hne
        exact hmiss c (by omega) (by omega) h3
      subst hci
      rw [reservedLoop_miss cfg start_block n (c + 1) _ _ x hmiss, Storage.get_set,
        if_pos h3.symm]

theorem mkfs_reserved_block (cfg : Config) (uninit : Block) (m : LinearINodeManager)
    (hdiv : cfg.BLOCK_SIZE % cfg.INODE_SIZE = 0) (b : Nat) (hb1 : 1 ≤ b)
    (hb : b < mkfsBound (m.mkfs cfg uninit).2) :
    (m.mkfs cfg uninit).2.disk.get (u64 ((m.mkfs cfg uninit).2.start_block + b)) =
      LinearINodeManager.mkfs.tagBlock cfg cfg.num_inodes_per_block 0 uninit := by
  obtain ⟨hstart, hcount, _⟩ := mkfs_loaded cfg uninit m hdiv
  have hle := mkfsBound_le (m.mkfs cfg uninit).2
  have hb64 : b < 2 ^ 64 := by omega
  have hne : ¬ u64 ((m.mkfs cfg uninit).2.start_block + b) = (m.mkfs cfg uninit).2.start_block := by
    intro h
    have h0 : u64 ((m.mkfs cfg uninit).2.start_block + b) =
        u64 ((m.mkfs cfg uninit).2.start_block + 0) := by
      rw [h, Nat.add_zero, u64_of_lt hstart]
    have := u64_add_inj hb64 (by norm_num) h0
    omega
  rw [mkfs_disk cfg uninit m hdiv, Storage.get_set, if_neg hne,
    zeroLoop_miss _ _ _ _ _ _ (fun c h1 h2 hc => by
      have := u64_add_inj (a := c) (b := b) (by omega) hb64 hc
      omega)]
  exact reservedLoop_hit_eq cfg _ _ 1 _ _ _ ⟨b, hb1, by omega, rfl⟩

theorem mkfsBound_exact (m : LinearINodeManager) (h : m.block_count * 256 < 2 ^ 64) :
    mkfsBound m = m.block_count * 256 / 330 := by
  unfold mkfsBound
  have h1 : u64 (m.block_count * 32) = m.block_count * 32 := u64_of_lt (by omega)
  rw [h1, u64_of_lt (by omega)]
  congr 1
  omega

/-- The slots that `mkfs` leaves `FREE`, for every loaded slot count, wrapped or
not. -/
theorem mkfs_slot_free (cfg : Config) (uninit : Block) (m : LinearINodeManager)
    (hdiv : cfg.BLOCK_SIZE % cfg.INODE_SIZE = 0) (hfree : cfg.FREE = 0) (n : Nat)
    (hn2 : 2 ≤ n) (hn : n < (m.mkfs cfg uninit).2.num_inodes)
    (hout : ¬ (1 ≤ n / cfg.num_inodes_per_block ∧
      n / cfg.num_inodes_per_block < mkfsBound (m.mkfs cfg uninit).2)) :
    (slot cfg (m.mkfs cfg uninit).2 n).type = cfg.FREE := by
  obtain ⟨hstart, _, hnum⟩ := mkfs_loaded cfg uninit m hdiv
  have hP : 0 < cfg.num_inodes_per_block := per_block_pos_of_lt hnum hn
  have hprod : n < cfg.num_inodes_per_block * (m.mkfs cfg uninit).2.block_count := by
    rw [hnum] at hn; exact lt_of_lt_of_le hn (Nat.mod_le _ _)
  have hb : n / cfg.num_inodes_per_block < (m.mkfs cfg uninit).2.block_count :=
    Nat.div_lt_of_lt_mul hprod
  have hdm := div_mod_decomp cfg.num_inodes_per_block n
  unfold slot
  rcases Nat.eq_zero_or_pos (n / cfg.num_inodes_per_block) with hb0 | hb1
  · have hnP : n < cfg.num_inodes_per_block := by
      rw [hb0] at hdm
      have := Nat.mod_lt n hP
      omega
    rw [hb0, Nat.mod_eq_of_lt hnP, Nat.add_zero, u64_of_lt hstart,
      mkfs_first_block cfg uninit m hdiv, first_block_apply, if_neg (by omega)]
    exact hfree.symm
  · rw [(mkfs_other_blocks cfg uninit m hdiv _ hb1 hb).2 (by omega)]
    exact hfree.symm

/-- C13: `mkfs()` overwrites every block of the inode region.  With
`K = block_count*32*8/330` as `mkfs` computes it (the plain quotient whenever
`block_count*256` fits in 64 bits), at least two records per block and `FREE`
the zero-valued tag, a completed `mkfs()` leaves: region block 0 zero-filled
except that slots 0 and 1 are tagged `RESERVED`; every region block `b` with
`1 <= b < K` equal to the tagged image of the local block, every record of it
tagged `RESERVED`; every region block `b` with `max(K, 1) <= b < block_count`
zero-filled.  Hence every slot in `[2, num_inodes)` outside the blocks
`1 .. K-1` is tagged `FREE`. -/
theorem mkfs_region_content (cfg : Config) (uninit : Block) (m : LinearINodeManager)
    (hok : (m.mkfs cfg uninit).1 = .ok ()) (hper : 2 ≤ cfg.num_inodes_per_block)
    (hfree : cfg.FREE = 0) :
    (∀ j, (m.mkfs cfg uninit).2.disk.get (u64 ((m.mkfs cfg uninit).2.start_block + 0)) j =
        if j = 1 ∨ j = 0 then ⟨cfg.RESERVED, 0⟩ else ⟨0, 0⟩) ∧
      ((slot cfg (m.mkfs cfg uninit).2 0).type = cfg.RESERVED ∧
        (slot cfg (m.mkfs cfg uninit).2 1).type = cfg.RESERVED) ∧
      (∀ b, 1 ≤ b → b < mkfsBound (m.mkfs cfg uninit).2 →
        b < (m.mkfs cfg uninit).2.block_count ∧
        (m.mkfs cfg uninit).2.disk.get (u64 ((m.mkfs cfg uninit).2.start_block + b)) =
          LinearINodeManager.mkfs.tagBlock cfg cfg.num_inodes_per_block 0 uninit ∧
        ∀ j, j < cfg.num_inodes_per_block →
          ((m.mkfs cfg uninit).2.disk.get (u64 ((m.mkfs cfg uninit).2.start_block + b))
            j).type = cfg.RESERVED) ∧
      (∀ b, max (mkfsBound (m.mkfs cfg uninit).2) 1 ≤ b →
        b < (m.mkfs cfg uninit).2.block_count →
        (m.mkfs cfg uninit).2.disk.get (u64 ((m.mkfs cfg uninit).2.start_block + b)) =
          Block.zero) ∧
      (∀ n, 2 ≤ n → n < (m.mkfs cfg uninit).2.num_inodes →
        ¬ (1 ≤ n / cfg.num_inodes_per_block ∧
          n / cfg.num_inodes_per_block < mkfsBound (m.mkfs cfg uninit).2) →
        (slot cfg (m.mkfs cfg uninit).2 n).type = cfg.FREE) ∧
      ((m.mkfs cfg uninit).2.block_count * 256 < 2 ^ 64 →
        mkfsBound (m.mkfs cfg uninit).2 = (m.mkfs cfg uninit).2.block_count * 256 / 330) := by
  have hdiv := (mkfs_ok_iff cfg uninit m).1 hok
  have hstart := (mkfs_loaded cfg uninit m hdiv).1
  have hle := mkfsBound_le (m.mkfs cfg uninit).2
  refine ⟨fun j => ?_, ⟨mkfs_slot_zero cfg uninit m hdiv, mkfs_slot_one cfg uninit m hdiv hper⟩,
    fun b hb1 hbK => ⟨by omega, mkfs_reserved_block cfg uninit m hdiv b hb1 hbK, ?_⟩,
    fun b hb hbc => ?_,
    fun n hn2 hn hout => mkfs_slot_free cfg uninit m hdiv hfree n hn2 hn hout,
    fun h => mkfsBound_exact _ h⟩
  · rw [Nat.add_zero, u64_of_lt hstart, mkfs_first_block cfg uninit m hdiv, first_block_apply]
  · exact (mkfs_other_blocks cfg uninit m hdiv b hb1 (by omega)).1 hbK
  · have hb1 : 1 ≤ b := le_trans (le_max_right _ _) hb
    have hbK : mkfsBound (m.mkfs cfg uninit).2 ≤ b := le_trans (le_max_left _ _) hb
    exact (mkfs_other_blocks cfg uninit m hdiv b hb1 hbc).2 hbK

theorem mkfs_region_content_witness :
    (((exampleManager 3).mkfs exampleConfig (fun _ => ⟨9, 9⟩)).1 = .ok () ∧
        2 ≤ exampleConfig.num_inodes_per_block ∧ exampleConfig.FREE = 0 ∧
        mkfsBound ((exampleManager 3).mkfs exampleConfig (fun _ => ⟨9, 9⟩)).2 = 2 ∧
        ((exampleManager 3).mkfs exampleConfig (fun _ => ⟨9, 9⟩)).2.block_count = 3 ∧
        ((exampleManager 3).mkfs exampleConfig (fun _ => ⟨9, 9⟩)).2.num_inodes = 12) ∧
      (((exampleManager 3).mkfs exampleConfig (fun _ => ⟨9, 9⟩)).2.disk.get
          (u64 (((exampleManager 3).mkfs exampleConfig (fun _ => ⟨9, 9⟩)).2.start_block + 1)) =
          LinearINodeManager.mkfs.tagBlock exampleConfig exampleConfig.num_inodes_per_block 0
            (fun _ => ⟨9, 9⟩)) ∧
      (((exampleManager 3).mkfs exampleConfig (fun _ => ⟨9, 9⟩)).2.disk.get
          (u64 (((exampleManager 3).mkfs exampleConfig (fun _ => ⟨9, 9⟩)).2.start_block + 2)) =
          Block.zero) ∧
      (slot exampleConfig ((exampleManager 3).mkfs exampleConfig (fun _ => ⟨9, 9⟩)).2 3).type =
        exampleConfig.FREE ∧
      (slot exampleConfig ((exampleManager 3).mkfs exampleConfig (fun _ => ⟨9, 9⟩)).2 8).type =
        exampleConfig.FREE :=
  ⟨⟨by decide, by decide, by decide, by decide, by decide, by decide⟩,
    ((mkfs_region_content exampleConfig (fun _ => ⟨9, 9⟩) (exampleManager 3)
      (by decide) (by decide) (by decide)).2.2.1 1 (by decide) (by decide)).2.1,
    (mkfs_region_content exampleConfig (fun _ => ⟨9, 9⟩) (exampleManager 3)
      (by decide) (by decide) (by decide)).2.2.2.1 2 (by decide) (by decide),
    (mkfs_region_content exampleConfig (fun _ => ⟨9, 9⟩) (exampleManager 3)
      (by decide) (by decide) (by decide)).2.2.2.2.1 3 (by decide) (by decide) (by decide),
    (mkfs_region_content exampleConfig (fun _ => ⟨9, 9⟩) (exampleManager 3)
      (by decide) (by decide) (by decide)).2.2.2.2.1 8 (by decide) (by decide) (by decide)⟩

/-! Loading the layout. -/

/-- C14: for every disk whose layout descriptor holds 64-bit values, `reload()`
completes exactly when its assertion holds; when it completes, `start_block` and
`block_count` are the `inode_block_start` and `inode_block_count` of the
descriptor decoded from block 0, and `num_inodes` is
`block_count * (Block::SIZE / INode::SIZE)` reduced modulo `2 ^ 64`.  Completed
or not, it leaves the disk as it was. -/
theorem reload_caches_layout (cfg : Config) (m : LinearINodeManager)
    (hs : (cfg.superblock (m.disk.get 0)).inode_block_start < 2 ^ 64)
    (hc : (cfg.superblock (m.disk.get 0)).inode_block_count < 2 ^ 64) :
    ((m.reload cfg).1 = .ok () ↔ cfg.BLOCK_SIZE % cfg.INODE_SIZE = 0) ∧
      ((m.reload cfg).1 = .ok () →
        (m.reload cfg).2.start_block = (cfg.superblock (m.disk.get 0)).inode_block_start ∧
        (m.reload cfg).2.block_count = (cfg.superblock (m.disk.get 0)).inode_block_count ∧
        (m.reload cfg).2.num_inodes =
          ((cfg.superblock (m.disk.get 0)).inode_block_count *
            (cfg.BLOCK_SIZE / cfg.INODE_SIZE)) % 2 ^ 64) ∧
      (m.reload cfg).2.disk = m.disk := by
  by_cases hdiv : cfg.BLOCK_SIZE % cfg.INODE_SIZE = 0
  · rw [reload_ok cfg m hdiv]
    refine ⟨⟨fun _ => hdiv, fun _ => rfl⟩, fun _ => ⟨u64_of_lt hs, u64_of_lt hc, ?_⟩, rfl⟩
    show u64 (cfg.num_inodes_per_block * u64 _) = _
    rw [u64_of_lt hc, Nat.mul_comm]
    rfl
  · rw [reload_failed cfg m hdiv]
    refine ⟨⟨fun h => ?_, fun h => absurd h hdiv⟩, fun h => ?_, rfl⟩
    · cases h
    · cases h

theorem reload_caches_layout_witness :
    ((exampleConfig.superblock ((exampleInUse).disk.get 0)).inode_block_start < 2 ^ 64 ∧
        (exampleConfig.superblock ((exampleInUse).disk.get 0)).inode_block_count < 2 ^ 64 ∧
        (exampleInUse.reload exampleConfig).1 = .ok ()) ∧
      ((exampleInUse.reload exampleConfig).2.start_block = 1 ∧
        (exampleInUse.reload exampleConfig).2.block_count = 3 ∧
        (exampleInUse.reload exampleConfig).2.num_inodes = 12) ∧
      (exampleInUse.reload exampleConfig).2.disk = exampleInUse.disk :=
  ⟨⟨by decide, by decide, by decide⟩,
    (reload_caches_layout exampleConfig exampleInUse (by decide) (by decide)).2.1 (by decide),
    (reload_caches_layout exampleConfig exampleInUse (by decide) (by decide)).2.2⟩

/-- C15, as stated, fails for a region of zero blocks: on the example disk whose
layout descriptor gives `inode_block_count = 0`, `reload()` and the constructor
complete, and the manager holds `block_count = 0` and `num_inodes = 0`. -/
theorem reload_fails_counterexample :
    u64 (exampleConfig.superblock ((exampleDisk 0).get 0)).inode_block_count = 0 ∧
      (LinearINodeManager.reload exampleConfig ⟨exampleDisk 0, 5, 5, 5⟩).1 = .ok () ∧
      (LinearINodeManager.construct exampleConfig (exampleDisk 0) 5 5 5).1 = .ok () ∧
      (LinearINodeManager.construct exampleConfig (exampleDisk 0) 5 5 5).2.block_count = 0 ∧
      (LinearINodeManager.construct exampleConfig (exampleDisk 0) 5 5 5).2.num_inodes = 0 := by
  decide

/-- C15, amended: `reload()`, and therefore the construction of the manager,
fails, by its assertion, exactly when the record size does not evenly divide
the block size, whatever the layout descriptor holds, and then leaves the
manager as it was; a descriptor that gives a region of zero blocks is accepted
like any other: when the record size divides the block size `reload()` completes
with `block_count = 0` and `num_inodes = 0`. -/
theorem reload_fails_iff (cfg : Config) (m : LinearINodeManager) :
    ((m.reload cfg).1 = .error .assertion_failed ↔ ¬ cfg.BLOCK_SIZE % cfg.INODE_SIZE = 0) ∧
      ((m.reload cfg).1 = .ok () ↔ cfg.BLOCK_SIZE % cfg.INODE_SIZE = 0) ∧
      (¬ cfg.BLOCK_SIZE % cfg.INODE_SIZE = 0 → (m.reload cfg).2 = m) ∧
      (LinearINodeManager.construct cfg m.disk m.start_block m.block_count m.num_inodes =
        m.reload cfg) ∧
      (cfg.BLOCK_SIZE % cfg.INODE_SIZE = 0 →
        u64 (cfg.superblock (m.disk.get 0)).inode_block_count = 0 →
        (m.reload cfg).1 = .ok () ∧ (m.reload cfg).2.block_count = 0 ∧
          (m.reload cfg).2.num_inodes = 0) := by
  by_cases hdiv : cfg.BLOCK_SIZE % cfg.INODE_SIZE = 0
  · rw [reload_ok cfg m hdiv]
    refine ⟨⟨fun h => ?_, fun h => absurd hdiv h⟩, ⟨fun _ => hdiv, fun _ => rfl⟩,
      fun h => absurd hdiv h, ?_, fun _ h0 => ⟨rfl, h0, ?_⟩⟩
    · cases h
    · rw [← reload_ok cfg m hdiv]; rfl
    · show u64 (cfg.num_inodes_per_block * u64 _) = 0
      rw [h0, Nat.mul_zero]
      rfl
  · rw [reload_failed cfg m hdiv]
    refine ⟨⟨fun _ => hdiv, fun _ => rfl⟩, ⟨fun h => ?_, fun h => absurd h hdiv⟩, fun _ => rfl,
      ?_, fun h => absurd h hdiv⟩
    · cases h
    · rw [← reload_failed cfg m hdiv]; rfl

theorem reload_fails_iff_witness :
    (¬ exampleOddConfig.BLOCK_SIZE % exampleOddConfig.INODE_SIZE = 0 ∧
        exampleConfig.BLOCK_SIZE % exampleConfig.INODE_SIZE = 0 ∧
        u64 (exampleConfig.superblock ((exampleManager 0).disk.get 0)).inode_block_count = 0) ∧
      ((exampleManager 3).reload exampleOddConfig).1 = .error .assertion_failed ∧
      ((exampleManager 3).reload exampleOddConfig).2 = exampleManager 3 ∧
      (((exampleManager 0).reload exampleConfig).1 = .ok () ∧
        ((exampleManager 0).reload exampleConfig).2.block_count = 0 ∧
        ((exampleManager 0).reload exampleConfig).2.num_inodes = 0) :=
  ⟨⟨by decide, by decide, by decide⟩,
    (reload_fails_iff exampleOddConfig (exampleManager 3)).1.2 (by decide),
    (reload_fails_iff exampleOddConfig (exampleManager 3)).2.2.1 (by decide),
    (reload_fails_iff exampleConfig (exampleManager 0)).2.2.2.2 (by decide) (by decide)⟩

/-! The capacity report. -/

/-- C16 does not hold of the code: `statfs` reports the constant 42 both as
`f_ffree` and as `f_favail`, whatever the state.  On the example region after
`mkfs` and one allocation, five slots are tagged `FREE` (seven of the twelve
are not), and the report says 42. -/
theorem statfs_reports_constant :
    (∀ (m : LinearINodeManager) (info : LinearINodeManager.statvfs),
        (m.statfs info).f_files = m.num_inodes ∧ (m.statfs info).f_ffree = 42 ∧
          (m.statfs info).f_favail = 42) ∧
      exampleInUse = (allocate exampleConfig (exampleFormatted 3) ⟨7, 99⟩).2 ∧
      (freeSlots exampleConfig exampleInUse).card = 5 ∧
      exampleInUse.num_inodes = 12 ∧
      (exampleInUse.statfs ⟨0, 0, 0⟩).f_ffree = 42 ∧
      (exampleInUse.statfs ⟨0, 0, 0⟩).f_favail = 42 :=
  ⟨fun _ _ => ⟨rfl, rfl, rfl⟩, rfl, by decide, by decide, rfl, rfl⟩

/-! Reloading after the descriptor has changed. -/

theorem get_accepted (cfg : Config) (m : LinearINodeManager) (i : Nat) (user_inode : INode)
    (hlo : cfg.root ≤ i) (hi : i < m.num_inodes) : (m.get cfg i user_inode).1 = .ok () := by
  have hc : ¬ (i ≥ m.num_inodes ∨ i < cfg.root) := by omega
  simp [LinearINodeManager.get, hc]

theorem set_accepted_fst (cfg : Config) (m : LinearINodeManager) (i : Nat) (r : INode)
    (hlo : cfg.root ≤ i) (hi : i < m.num_inodes) : (m.set cfg i r).1 = .ok () := by
  rw [set_accepted cfg m i r hlo hi]

theorem release_accepted_fst (cfg : Config) (m : LinearINodeManager) (i : Nat)
    (hlo : cfg.root ≤ i) (hi : i < m.num_inodes) : (m.release cfg i).1 = .ok () := by
  rw [release_accepted cfg m i hlo hi]

theorem get_rejected (cfg : Config) (m : LinearINodeManager) (i : Nat) (user_inode : INode)
    (h : i ≥ m.num_inodes ∨ i < cfg.root) :
    m.get cfg i user_inode = (.error .out_of_range, user_inode, m) := by
  simp [LinearINodeManager.get, h]

/-- C17: let the disk be modified from outside (any new content `disk2`, in
particular a block 0 whose descriptor gives fewer blocks) and `reload()` be
called and complete.  The bounds checks of `get`, `set` and `release` then use
the `num_inodes` loaded from `disk2`: an identifier `i` below the old
`num_inodes`, accepted before the reload, but not below the new one is rejected
with the out-of-range error after it, and every identifier in
`[root, new num_inodes)`, so every one in `[2, new num_inodes)`, is accepted. -/
theorem reload_moves_bounds (cfg : Config) (m : LinearINodeManager) (disk2 : Storage) (i : Nat)
    (r user_inode : INode) (hdiv : cfg.BLOCK_SIZE % cfg.INODE_SIZE = 0)
    (hlo : cfg.root ≤ i) (hold : i < m.num_inodes)
    (hnew : (LinearINodeManager.reload cfg { m with disk := disk2 }).2.num_inodes ≤ i) :
    (LinearINodeManager.reload cfg { m with disk := disk2 }).1 = .ok () ∧
      (LinearINodeManager.reload cfg { m with disk := disk2 }).2.num_inodes =
        u64 (cfg.num_inodes_per_block * u64 (cfg.superblock (disk2.get 0)).inode_block_count) ∧
      ((LinearINodeManager.get cfg { m with disk := disk2 } i user_inode).1 = .ok () ∧
        (LinearINodeManager.set cfg { m with disk := disk2 } i r).1 = .ok () ∧
        (LinearINodeManager.release cfg { m with disk := disk2 } i).1 = .ok ()) ∧
      ((LinearINodeManager.reload cfg { m with disk := disk2 }).2.get cfg i user_inode =
          (.error .out_of_range, user_inode,
            (LinearINodeManager.reload cfg { m with disk := disk2 }).2) ∧
        (LinearINodeManager.reload cfg { m with disk := disk2 }).2.set cfg i r =
          (.error .out_of_range, (LinearINodeManager.reload cfg { m with disk := disk2 }).2) ∧
        (LinearINodeManager.reload cfg { m with disk := disk2 }).2.release cfg i =
          (.error .out_of_range, (LinearINodeManager.reload cfg { m with disk := disk2 }).2)) ∧
      (∀ j, cfg.root ≤ j →
        j < (LinearINodeManager.reload cfg { m with disk := disk2 }).2.num_inodes →
        ((LinearINodeManager.reload cfg { m with disk := disk2 }).2.get cfg j user_inode).1 =
            .ok () ∧
          ((LinearINodeManager.reload cfg { m with disk := disk2 }).2.set cfg j r).1 = .ok () ∧
          ((LinearINodeManager.reload cfg { m with disk := disk2 }).2.release cfg j).1 =
            .ok ()) := by
  have hrej : i ≥ (LinearINodeManager.reload cfg { m with disk := disk2 }).2.num_inodes ∨
      i < cfg.root := Or.inl hnew
  refine ⟨by rw [reload_ok cfg _ hdiv], by rw [reload_ok cfg _ hdiv], ⟨?_, ?_, ?_⟩,
    ⟨get_rejected cfg _ i user_inode hrej, set_rejected cfg _ i r hrej,
      release_rejected cfg _ i hrej⟩, fun j hj1 hj2 => ⟨get_accepted cfg _ j user_inode hj1 hj2,
        set_accepted_fst cfg _ j r hj1 hj2, release_accepted_fst cfg _ j hj1 hj2⟩⟩
  · exact get_accepted cfg _ i user_inode hlo hold
  · exact set_accepted_fst cfg _ i r hlo hold
  · exact release_accepted_fst cfg _ i hlo hold

theorem reload_moves_bounds_witness :
    (exampleConfig.BLOCK_SIZE % exampleConfig.INODE_SIZE = 0 ∧ exampleConfig.root ≤ 9 ∧
        9 < exampleInUse.num_inodes ∧
        (LinearINodeManager.reload exampleConfig
          { exampleInUse with disk := exampleDisk 2 }).2.num_inodes ≤ 9) ∧
      ((LinearINodeManager.reload exampleConfig
          { exampleInUse with disk := exampleDisk 2 }).2.num_inodes = 8 ∧
        (LinearINodeManager.get exampleConfig { exampleInUse with disk := exampleDisk 2 } 9
          ⟨5, 6⟩).1 = .ok () ∧
        (LinearINodeManager.reload exampleConfig
          { exampleInUse with disk := exampleDisk 2 }).2.get exampleConfig 9 ⟨5, 6⟩ =
          (.error .out_of_range, ⟨5, 6⟩,
            (LinearINodeManager.reload exampleConfig
              { exampleInUse with disk := exampleDisk 2 }).2) ∧
        ((LinearINodeManager.reload exampleConfig
          { exampleInUse with disk := exampleDisk 2 }).2.get exampleConfig 7 ⟨5, 6⟩).1 =
            .ok ()) :=
  ⟨⟨by decide, by decide, by decide, by decide⟩, by decide,
    (reload_moves_bounds exampleConfig exampleInUse (exampleDisk 2) 9 ⟨7, 98⟩ ⟨5, 6⟩
      (by decide) (by decide) (by decide) (by decide)).2.2.1.1,
    (reload_moves_bounds exampleConfig exampleInUse (exampleDisk 2) 9 ⟨7, 98⟩ ⟨5, 6⟩
      (by decide) (by decide) (by decide) (by decide)).2.2.2.1.1,
    ((reload_moves_bounds exampleConfig exampleInUse (exampleDisk 2) 9 ⟨7, 98⟩ ⟨5, 6⟩
      (by decide) (by decide) (by decide) (by decide)).2.2.2.2 7 (by decide) (by decide)).1⟩

/-! `mkfs` and the cached layout. -/

/-- C18: `mkfs()` does not depend on the layout cached before the call.  For
every disk, every content of the local block and every two cached layouts, the
two runs have the same outcome and leave the same disk contents; when `mkfs()`
completes they leave the same manager, whose layout is the one decoded from
block 0 of the disk. -/
theorem mkfs_ignores_cached_layout (cfg : Config) (uninit : Block) (disk : Storage)
    (s1 b1 n1 s2 b2 n2 : Nat) :
    (LinearINodeManager.mkfs cfg uninit ⟨disk, s1, b1, n1⟩).1 =
        (LinearINodeManager.mkfs cfg uninit ⟨disk, s2, b2, n2⟩).1 ∧
      (LinearINodeManager.mkfs cfg uninit ⟨disk, s1, b1, n1⟩).2.disk =
        (LinearINodeManager.mkfs cfg uninit ⟨disk, s2, b2, n2⟩).2.disk ∧
      ((LinearINodeManager.mkfs cfg uninit ⟨disk, s1, b1, n1⟩).1 = .ok () →
        (LinearINodeManager.mkfs cfg uninit ⟨disk, s1, b1, n1⟩).2 =
            (LinearINodeManager.mkfs cfg uninit ⟨disk, s2, b2, n2⟩).2 ∧
          (LinearINodeManager.mkfs cfg uninit ⟨disk, s1, b1, n1⟩).2.start_block =
            u64 (cfg.superblock (disk.get 0)).inode_block_start ∧
          (LinearINodeManager.mkfs cfg uninit ⟨disk, s1, b1, n1⟩).2.block_count =
            u64 (cfg.superblock (disk.get 0)).inode_block_count ∧
          (LinearINodeManager.mkfs cfg uninit ⟨disk, s1, b1, n1⟩).2.num_inodes =
            u64 (cfg.num_inodes_per_block *
              u64 (cfg.superblock (disk.get 0)).inode_block_count)) := by
  by_cases hdiv : cfg.BLOCK_SIZE % cfg.INODE_SIZE = 0
  · refine ⟨?_, ?_, fun _ => ⟨?_, mkfs_layout cfg uninit _ hdiv⟩⟩ <;>
      simp [LinearINodeManager.mkfs, reload_ok cfg _ hdiv]
  · refine ⟨?_, ?_, fun h => ?_⟩
    · simp [LinearINodeManager.mkfs, reload_failed cfg _ hdiv]
    · simp [LinearINodeManager.mkfs, reload_failed cfg _ hdiv]
    · exact absurd ((mkfs_ok_iff cfg uninit _).1 h) hdiv

theorem mkfs_ignores_cached_layout_witness :
    (LinearINodeManager.mkfs exampleConfig Block.zero ⟨exampleDisk 3, 0, 0, 0⟩).1 = .ok () ∧
      (LinearINodeManager.mkfs exampleConfig Block.zero ⟨exampleDisk 3, 0, 0, 0⟩).2 =
        (LinearINodeManager.mkfs exampleConfig Block.zero ⟨exampleDisk 3, 40, 50, 60⟩).2 :=
  ⟨by decide,
    ((mkfs_ignores_cached_layout exampleConfig Block.zero (exampleDisk 3) 0 0 0 40 50 60).2.2
      (by decide)).1⟩

/-! The address translation. -/

theorem block_index_lt (cfg : Config) (m : LinearINodeManager) (i : Nat) (hL : Loaded cfg m)
    (hi : i < m.num_inodes) : i / cfg.num_inodes_per_block < m.block_count := by
  obtain ⟨_, _, hnum⟩ := hL
  have hprod : i < cfg.num_inodes_per_block * m.block_count := by
    rw [hnum] at hi; exact lt_of_lt_of_le hi (Nat.mod_le _ _)
  exact Nat.div_lt_of_lt_mul hprod

theorem get_accepted_eq (cfg : Config) (m : LinearINodeManager) (i : Nat) (user_inode : INode)
    (hlo : cfg.root ≤ i) (hi : i < m.num_inodes) :
    m.get cfg i user_inode = (.ok (), slot cfg m i, m) := by
  have hc : ¬ (i ≥ m.num_inodes ∨ i < cfg.root) := by omega
  simp [LinearINodeManager.get, hc, slot]

theorem traces_accepted (cfg : Config) (m : LinearINodeManager) (i : Nat) (r user_inode : INode)
    (hlo : cfg.root ≤ i) (hi : i < m.num_inodes) :
    (m.getTraced cfg i user_inode).2 =
        [.get (u64 (m.start_block + i / cfg.num_inodes_per_block))] ∧
      (m.setTraced cfg i r).2 =
        [.get (u64 (m.start_block + i / cfg.num_inodes_per_block)),
          .set (u64 (m.start_block + i / cfg.num_inodes_per_block))] ∧
      (m.releaseTraced cfg i).2 =
        [.get (u64 (m.start_block + i / cfg.num_inodes_per_block)),
          .set (u64 (m.start_block + i / cfg.num_inodes_per_block))] := by
  have hc : ¬ (i ≥ m.num_inodes ∨ i < cfg.root) := by omega
  simp [LinearINodeManager.getTraced, LinearINodeManager.setTraced,
    LinearINodeManager.releaseTraced, hc]

/-- C19, as stated, fails when the region reaches past the last block index: for
the manager loaded from a descriptor that places two blocks at block
`2 ^ 64 - 1`, identifier 4 passes the bounds check and its relative block index
1 is below `block_count`, but the block that `get(4)` reads is
`(2 ^ 64 - 1 + 1) mod 2 ^ 64 = 0`, which is below `start_block`. -/
theorem translation_in_bounds_counterexample :
    Loaded exampleConfig exampleAtEnd ∧
      exampleConfig.BLOCK_SIZE % exampleConfig.INODE_SIZE = 0 ∧
      exampleAtEnd.start_block = 2 ^ 64 - 1 ∧ exampleAtEnd.block_count = 2 ∧
      exampleConfig.root ≤ 4 ∧ 4 < exampleAtEnd.num_inodes ∧
      4 / exampleConfig.num_inodes_per_block < exampleAtEnd.block_count ∧
      (exampleAtEnd.getTraced exampleConfig 4 ⟨5, 6⟩).2 = [.get 0] ∧
      ¬ (exampleAtEnd.start_block ≤ 0) := by
  decide

/-- C19, amended: for every loaded layout and every identifier `i` below
`num_inodes`, the relative block index `i / num_inodes_per_block` is below
`block_count` and the byte range of record `i % num_inodes_per_block`,
`INode::SIZE` bytes from `(i % num_inodes_per_block) * INode::SIZE`, lies within
`[0, Block::SIZE)`; when `start_block + block_count <= 2 ^ 64`, the absolute
block accessed, `start_block + i / num_inodes_per_block`, lies in
`[start_block, start_block + block_count)`.  That block is the only one that
`get`, `set` and `release` read or write. -/
theorem translation_in_bounds (cfg : Config) (m : LinearINodeManager) (i : Nat)
    (r user_inode : INode) (hL : Loaded cfg m) (hi : i < m.num_inodes) :
    i / cfg.num_inodes_per_block < m.block_count ∧
      (i % cfg.num_inodes_per_block) * cfg.INODE_SIZE + cfg.INODE_SIZE ≤ cfg.BLOCK_SIZE ∧
      (m.start_block + m.block_count ≤ 2 ^ 64 →
        m.start_block ≤ u64 (m.start_block + i / cfg.num_inodes_per_block) ∧
          u64 (m.start_block + i / cfg.num_inodes_per_block) <
            m.start_block + m.block_count) ∧
      (cfg.root ≤ i →
        (m.getTraced cfg i user_inode).2 =
            [.get (u64 (m.start_block + i / cfg.num_inodes_per_block))] ∧
          (m.setTraced cfg i r).2 =
            [.get (u64 (m.start_block + i / cfg.num_inodes_per_block)),
              .set (u64 (m.start_block + i / cfg.num_inodes_per_block))] ∧
          (m.releaseTraced cfg i).2 =
            [.get (u64 (m.start_block + i / cfg.num_inodes_per_block)),
              .set (u64 (m.start_block + i / cfg.num_inodes_per_block))]) := by
  have hb := block_index_lt cfg m i hL hi
  have hP : 0 < cfg.num_inodes_per_block := per_block_pos_of_lt hL.2.2 hi
  refine ⟨hb, ?_, fun hend => ?_, fun hlo => traces_accepted cfg m i r user_inode hlo hi⟩
  · have hmod : i % cfg.num_inodes_per_block + 1 ≤ cfg.num_inodes_per_block := Nat.mod_lt _ hP
    have h1 : (i % cfg.num_inodes_per_block + 1) * cfg.INODE_SIZE ≤
        cfg.num_inodes_per_block * cfg.INODE_SIZE := Nat.mul_le_mul_right _ hmod
    have h2 : cfg.num_inodes_per_block * cfg.INODE_SIZE ≤ cfg.BLOCK_SIZE :=
      Nat.div_mul_le_self _ _
    have h3 : (i % cfg.num_inodes_per_block + 1) * cfg.INODE_SIZE =
        (i % cfg.num_inodes_per_block) * cfg.INODE_SIZE + cfg.INODE_SIZE := by ring
    omega
  · generalize i / cfg.num_inodes_per_block = q at hb ⊢
    rw [u64_of_lt (by omega)]
    omega

theorem translation_in_bounds_witness :
    (Loaded exampleConfig exampleInUse ∧ 9 < exampleInUse.num_inodes ∧
        exampleInUse.start_block + exampleInUse.block_count ≤ 2 ^ 64 ∧
        exampleConfig.root ≤ 9) ∧
      (9 / exampleConfig.num_inodes_per_block < exampleInUse.block_count ∧
        (9 % exampleConfig.num_inodes_per_block) * exampleConfig.INODE_SIZE +
          exampleConfig.INODE_SIZE ≤ exampleConfig.BLOCK_SIZE) ∧
      (exampleInUse.start_block ≤
          u64 (exampleInUse.start_block + 9 / exampleConfig.num_inodes_per_block) ∧
        u64 (exampleInUse.start_block + 9 / exampleConfig.num_inodes_per_block) <
          exampleInUse.start_block + exampleInUse.block_count) :=
  ⟨⟨by decide, by decide, by decide, by decide⟩,
    ⟨(translation_in_bounds exampleConfig exampleInUse 9 ⟨7, 98⟩ ⟨5, 6⟩ (by decide)
        (by decide)).1,
      (translation_in_bounds exampleConfig exampleInUse 9 ⟨7, 98⟩ ⟨5, 6⟩ (by decide)
        (by decide)).2.1⟩,
    (translation_in_bounds exampleConfig exampleInUse 9 ⟨7, 98⟩ ⟨5, 6⟩ (by decide)
      (by decide)).2.2.1 (by decide)⟩

/-! The frame of `set`. -/

/-- C20, as stated, fails when the region reaches past the last block index: for
the manager loaded from a descriptor that places two blocks at block
`2 ^ 64 - 1`, so that `start_block >= 1`, identifiers 4 and 5 are valid and
`set(4, r)` writes block `(2 ^ 64 - 1 + 1) mod 2 ^ 64 = 0`: record 0 of block 0,
which held the descriptor, is `r` afterwards. -/
theorem set_frame_counterexample :
    Loaded exampleConfig exampleAtEnd ∧ 1 ≤ exampleAtEnd.start_block ∧
      exampleConfig.root ≤ 4 ∧ 4 < exampleAtEnd.num_inodes ∧
      exampleConfig.root ≤ 5 ∧ 5 < exampleAtEnd.num_inodes ∧
      (exampleAtEnd.set exampleConfig 4 ⟨7, 99⟩).1 = .ok () ∧
      exampleAtEnd.disk.get 0 0 = ⟨2 ^ 64 - 1, 2⟩ ∧
      (exampleAtEnd.set exampleConfig 4 ⟨7, 99⟩).2.disk.get 0 0 = ⟨7, 99⟩ := by
  decide

/-- C20, amended: for every disk, loaded layout, record `r` and identifiers `i`
and `j` accepted by the bounds check with `j` different from `i`: `set(i, r)`
succeeds, keeps the layout and leaves slot `j` untouched, `get(j)` handing back
the same record after `set(i, r)` as before it; it leaves every block other
than the one containing slot `i` unchanged, and among them block 0 when
`start_block >= 1` and `start_block + block_count <= 2 ^ 64`. -/
theorem set_frame (cfg : Config) (m : LinearINodeManager) (i j : Nat) (r user_inode : INode)
    (hL : Loaded cfg m) (hlo : cfg.root ≤ i) (hi : i < m.num_inodes)
    (hjlo : cfg.root ≤ j) (hj : j < m.num_inodes) (hne : j ≠ i) :
    (m.set cfg i r).1 = .ok () ∧
      ((m.set cfg i r).2.start_block = m.start_block ∧
        (m.set cfg i r).2.block_count = m.block_count ∧
        (m.set cfg i r).2.num_inodes = m.num_inodes) ∧
      (m.get cfg j user_inode = (.ok (), slot cfg m j, m) ∧
        (m.set cfg i r).2.get cfg j user_inode = (.ok (), slot cfg m j, (m.set cfg i r).2)) ∧
      (∀ k, k ≠ u64 (m.start_block + i / cfg.num_inodes_per_block) →
        (m.set cfg i r).2.disk.get k = m.disk.get k) ∧
      (1 ≤ m.start_block → m.start_block + m.block_count ≤ 2 ^ 64 →
        (m.set cfg i r).2.disk.get 0 = m.disk.get 0) := by
  obtain ⟨l1, l2, l3⟩ := set_layout cfg m i r
  have hnum64 : m.num_inodes ≤ 2 ^ 64 := by
    rw [hL.2.2]; exact le_of_lt (u64_lt _)
  have hframe : ∀ k, k ≠ u64 (m.start_block + i / cfg.num_inodes_per_block) →
      (m.set cfg i r).2.disk.get k = m.disk.get k := by
    intro k hk
    rw [set_accepted cfg m i r hlo hi]
    show (Storage.set _ _ _).get k = _
    rw [Storage.get_set, if_neg hk]
  refine ⟨set_accepted_fst cfg m i r hlo hi, ⟨l1, l2, l3⟩,
    ⟨get_accepted_eq cfg m j user_inode hjlo hj, ?_⟩, hframe, fun h1 hend => ?_⟩
  · rw [get_accepted_eq cfg _ j user_inode hjlo (by rw [l3]; exact hj),
      slot_set_other cfg m i j r hnum64 (by omega) hne]
  · apply hframe
    have hb := block_index_lt cfg m i hL hi
    generalize i / cfg.num_inodes_per_block = q at hb ⊢
    rw [u64_of_lt (by omega)]
    omega

theorem set_frame_witness :
    (Loaded exampleConfig exampleInUse ∧ exampleConfig.root ≤ 9 ∧
        9 < exampleInUse.num_inodes ∧ exampleConfig.root ≤ 2 ∧ 2 < exampleInUse.num_inodes ∧
        2 ≠ 9 ∧ 1 ≤ exampleInUse.start_block ∧
        exampleInUse.start_block + exampleInUse.block_count ≤ 2 ^ 64) ∧
      (exampleInUse.set exampleConfig 9 ⟨7, 98⟩).1 = .ok () ∧
      (exampleInUse.get exampleConfig 2 ⟨5, 6⟩ = (.ok (), slot exampleConfig exampleInUse 2,
          exampleInUse) ∧
        (exampleInUse.set exampleConfig 9 ⟨7, 98⟩).2.get exampleConfig 2 ⟨5, 6⟩ =
          (.ok (), slot exampleConfig exampleInUse 2,
            (exampleInUse.set exampleConfig 9 ⟨7, 98⟩).2)) ∧
      (exampleInUse.set exampleConfig 9 ⟨7, 98⟩).2.disk.get 0 = exampleInUse.disk.get 0 :=
  ⟨⟨by decide, by decide, by decide, by decide, by decide, by decide, by decide, by decide⟩,
    (set_frame exampleConfig exampleInUse 9 2 ⟨7, 98⟩ ⟨5, 6⟩ (by decide) (by decide) (by decide)
      (by decide) (by decide) (by decide)).1,
    (set_frame exampleConfig exampleInUse 9 2 ⟨7, 98⟩ ⟨5, 6⟩ (by decide) (by decide) (by decide)
      (by decide) (by decide) (by decide)).2.2.1,
    (set_frame exampleConfig exampleInUse 9 2 ⟨7, 98⟩ ⟨5, 6⟩ (by decide) (by decide) (by decide)
      (by decide) (by decide) (by decide)).2.2.2.2 (by decide) (by decide)⟩

end UnixFS
